import Mathlib

/-!
Shallow embedding of the C/C++ build-rule subsystem of dbt-rules
(package `cc`: `RULES/cc/cc.go` and its toolchain file), together with
proofs of the specified properties.

The `core` engine package (paths, build-step registration, fatal errors)
is not part of the sources; it is modelled from the spec where needed,
as noted on each such definition.
-/

/-- Modelled from the spec: `core.Path` is a path primitive supplied by the
host engine.  A path is rooted in the source tree, in the output tree, or is
a global (tool) path; it supports prefixing, extension rewriting, and
absolute/relative rendering. -/
inductive PathT where
  | src (rel : String)
  | out (rel : String)
  | tool (s : String)
deriving DecidableEq, Repr

/-- The root-relative rendering of a path. -/
def PathT.rel : PathT → String
  | .src r => r
  | .out r => r
  | .tool s => s

/-- Modelled from the spec: absolute rendering of a path (`Path.Absolute`).
Distinct output paths render to distinct absolute strings. -/
def PathT.absolute : PathT → String
  | .src r => "/workspace/src/" ++ r
  | .out r => "/workspace/build/" ++ r
  | .tool s => s

/-- Modelled from the spec: relative rendering of a path (`Path.Relative`). -/
def PathT.relative (p : PathT) : String := p.rel

/-- Modelled from the spec: `Path.WithPrefix` prepends a string to the
root-relative path and produces an output path (`core.OutPath`). -/
def PathT.withPfx : PathT → String → PathT
  | .src r, s => .out (s ++ r)
  | .out r, s => .out (s ++ r)
  | .tool t, s => .out (s ++ t)

/-- Drop a trailing `.ext` segment of a character list, if any. -/
def stripExtList (cs : List Char) : List Char :=
  if cs.contains '.' then ((cs.reverse.dropWhile (· ≠ '.')).drop 1).reverse else cs

/-- Modelled from the spec: `Path.WithExt` rewrites the extension of a path. -/
def PathT.withExt : PathT → String → PathT
  | .src r, e => .src (String.mk (stripExtList r.toList) ++ "." ++ e)
  | .out r, e => .out (String.mk (stripExtList r.toList) ++ "." ++ e)
  | .tool t, e => .tool (String.mk (stripExtList t.toList) ++ "." ++ e)

/-- One character of Go `%q` quoting (printable-ASCII fragment): backslashes
and double quotes are escaped, everything else is kept. -/
def goQuoteChar (c : Char) : List Char :=
  if c = '"' then ['\\', '"'] else if c = '\\' then ['\\', '\\'] else [c]

/-- Models Go `fmt %q` applied to a string of printable ASCII characters:
the string is wrapped in double quotes with inner quotes and backslashes
escaped. -/
def goQuote (s : String) : String :=
  "\"" ++ String.mk ((s.toList.map goQuoteChar).flatten) ++ "\""

/-- Go `%q` applied to a `core.Path` value: the path's rendering, quoted. -/
def qp (p : PathT) : String := goQuote p.absolute

/-- `joinQuoted` from the toolchain file: each path quoted and followed by a
single space. -/
def joinQuoted (paths : List PathT) : String :=
  String.join (paths.map (fun p => qp p ++ " "))

/-- The message of a Go nil-interface method call (`panic: runtime error`),
used where the code invokes a method on a nil `core.Path`/`Toolchain`. -/
def nilPanicMsg : String :=
  "panic: runtime error: invalid memory address or nil pointer dereference"

/-- The non-recursive part of the `Toolchain` interface of the toolchain
file: name, command generators, optional default link script, and the
optional `Accepts` capability.  The repository's sole `Accepts`
implementation (`GccToolchain.Accepts`) inspects only the child toolchain's
name, so the capability is modelled as a predicate on that name. -/
structure ToolchainCore where
  name : String
  objectFileCmd : PathT → PathT → List String → List PathT → PathT → String
  staticLibraryCmd : PathT → List PathT → String
  sharedLibraryCmd : PathT → List PathT → String
  binaryCmd : PathT → List PathT → List PathT → List PathT → List String → Option PathT → String
  blobObjectCmd : PathT → PathT → String
  rawBinaryCmd : PathT → PathT → String
  script : Option PathT
  acceptsP : Option (String → Bool)

mutual

/-- `Toolchain` (interface): its non-recursive capabilities plus `StdDeps`. -/
inductive Toolchain : Type where
  | mk (tcore : ToolchainCore) (stdDeps : List Dep) : Toolchain

/-- `Dep` (interface): a plain `Library` or a `multipleToolchainLibrary`
(base output path plus wrapped library). -/
inductive Dep : Type where
  | lib (l : Library) : Dep
  | mtl (baseOut : PathT) (l : Library) : Dep

/-- `Library` from cc.go: output path (nil-able), sources, blobs, pre-built
objects, include directories, compiler flags, dependency references,
shared/always-link flags, optional pinned toolchain. -/
inductive Library : Type where
  | mk (outp : Option PathT) (srcs blobs objs includes : List PathT)
       (compilerFlags : List String) (deps : List Dep)
       (shared alwaysLink : Bool) (toolchain : Option Toolchain) : Library

end

def Toolchain.tcore : Toolchain → ToolchainCore
  | .mk c _ => c

def Toolchain.stdDeps : Toolchain → List Dep
  | .mk _ d => d

def Toolchain.name (tc : Toolchain) : String := tc.tcore.name

def Toolchain.script (tc : Toolchain) : Option PathT := tc.tcore.script

def Library.outp : Library → Option PathT
  | .mk o _ _ _ _ _ _ _ _ _ => o

def Library.srcs : Library → List PathT
  | .mk _ s _ _ _ _ _ _ _ _ => s

def Library.blobs : Library → List PathT
  | .mk _ _ b _ _ _ _ _ _ _ => b

def Library.objs : Library → List PathT
  | .mk _ _ _ o _ _ _ _ _ _ => o

def Library.includes : Library → List PathT
  | .mk _ _ _ _ i _ _ _ _ _ => i

def Library.compilerFlags : Library → List String
  | .mk _ _ _ _ _ f _ _ _ _ => f

def Library.deps : Library → List Dep
  | .mk _ _ _ _ _ _ d _ _ _ => d

def Library.shared : Library → Bool
  | .mk _ _ _ _ _ _ _ s _ _ => s

def Library.alwaysLink : Library → Bool
  | .mk _ _ _ _ _ _ _ _ a _ => a

def Library.toolchain : Library → Option Toolchain
  | .mk _ _ _ _ _ _ _ _ _ t => t

/-- `Library` value with the `Out` field replaced. -/
def Library.setOut : Library → Option PathT → Library
  | .mk _ s b o i f d sh a t, o' => .mk o' s b o i f d sh a t

/-- `Library` value with the `Toolchain` field replaced. -/
def Library.setToolchain : Library → Option Toolchain → Library
  | .mk o s b ob i f d sh a _, t' => .mk o s b ob i f d sh a t'

/-- The process-wide toolchain state of the toolchain file: the `toolchains`
registry map and the `cc-toolchain` flag value naming the default
toolchain. -/
structure Registry where
  toolchains : List (String × Toolchain)
  defaultName : String

/-- `DefaultToolchain` from the toolchain file: look the configured name up
in the registry; an unknown name is a fatal error. -/
def DefaultToolchain (R : Registry) : Except String Toolchain :=
  match (R.toolchains.lookup R.defaultName) with
  | some tc => .ok tc
  | none => .error ("No registered toolchain " ++ goQuote R.defaultName)

/-- `toolchainOrDefault` from the toolchain file. -/
def toolchainOrDefault (R : Registry) : Option Toolchain → Except String Toolchain
  | none => DefaultToolchain R
  | some tc => .ok tc

/-- `ToolchainAccepts` from the toolchain file: the parent accepts the child
if their names are equal, or the parent has the `Accepts` capability and it
admits the child; a toolchain without the capability accepts nothing else. -/
def ToolchainAccepts (parent child : Toolchain) : Bool :=
  if parent.name = child.name then true
  else
    match parent.tcore.acceptsP with
    | some f => f child.name
    | none => false

/-- `Library.CcLibrary` from cc.go: resolve the requesting toolchain,
enforce compatibility against the library's (pinned-or-default) toolchain,
and return the library itself unchanged.  On incompatibility, the fatal
message renders `lib.Out.Relative()`, which panics first when `Out` is nil. -/
def Library.ccLibrary (R : Registry) (l : Library) (tcOpt : Option Toolchain) :
    Except String Library :=
  match toolchainOrDefault R tcOpt with
  | .error e => .error e
  | .ok tc =>
    match toolchainOrDefault R l.toolchain with
    | .error e => .error e
    | .ok child =>
      if ToolchainAccepts tc child then .ok l
      else
        match l.outp with
        | none => .error nilPanicMsg
        | some p =>
          .error ("Library " ++ p.relative ++ " does not support toolchain " ++ tc.name)

/-- `multipleToolchainLibrary.CcLibrary` from cc.go: resolve the requested
toolchain; if its name differs from the default toolchain's name, replace
the output path by the base output prefixed with the toolchain's name; in
all cases bind the `Toolchain` field to the requested toolchain. -/
def mtlCcLibrary (R : Registry) (baseOut : PathT) (l : Library)
    (tcOpt : Option Toolchain) : Except String Library :=
  match toolchainOrDefault R tcOpt with
  | .error e => .error e
  | .ok tc =>
    match DefaultToolchain R with
    | .error e => .error e
    | .ok dflt =>
      let tcLib := if tc.name ≠ dflt.name
        then l.setOut (some (baseOut.withPfx (tc.name ++ "/")))
        else l
      .ok (tcLib.setToolchain (some tc))

/-- `Dep.CcLibrary` dispatch over the two `Dep` implementations in cc.go. -/
def Dep.ccLibrary (R : Registry) (tcOpt : Option Toolchain) : Dep → Except String Library
  | .lib l => l.ccLibrary R tcOpt
  | .mtl baseOut l => mtlCcLibrary R baseOut l tcOpt

/-- The library a `Dep` wraps (both implementations carry one). -/
def Dep.underlying : Dep → Library
  | .lib l => l
  | .mtl _ l => l

/-- `lib.Out.Absolute()` as evaluated by the collector; a nil `Out` is a
nil-interface method call. -/
def Library.outKey (l : Library) : Except String String :=
  match l.outp with
  | none => .error nilPanicMsg
  | some p => .ok p.absolute

/-- Resolution never changes the `Deps` field: `Library.CcLibrary` returns
the library itself, and the multi-toolchain copy only rewrites `Out` and
`Toolchain`. -/
theorem ccLibrary_deps (R : Registry) (tcOpt : Option Toolchain) (d : Dep)
    (lib : Library) (h : d.ccLibrary R tcOpt = .ok lib) :
    lib.deps = d.underlying.deps := by
  cases d with
  | lib l =>
    simp only [Dep.ccLibrary, Library.ccLibrary] at h
    split at h
    · exact absurd h (by simp)
    · split at h
      · exact absurd h (by simp)
      · split at h
        · cases h; rfl
        · split at h <;> exact absurd h (by simp)
  | mtl baseOut l =>
    simp only [Dep.ccLibrary, mtlCcLibrary] at h
    split at h
    · exact absurd h (by simp)
    · split at h
      · exact absurd h (by simp)
      · cases h
        simp only [Dep.underlying]
        split <;> cases l <;> rfl

/-- `collectDepsWithToolchainRec` from cc.go: depth-first traversal that
resolves each reference under the given toolchain, keys visited entries by
the resolved library's absolute output path, and recurses into the resolved
library's dependency references (which, by `ccLibrary_deps`, are those of
the underlying library, giving the structural bound used for termination).
The threaded visited map is returned alongside the collected list. -/
def collectDepsWithToolchainRec (R : Registry) (tc : Toolchain) :
    List Dep → List String → Except String (List Library × List String)
  | [], visited => .ok ([], visited)
  | d :: rest, visited =>
    match Dep.ccLibrary R (some tc) d with
    | .error e => .error e
    | .ok lib =>
      match lib.outKey with
      | .error e => .error e
      | .ok key =>
        if visited.contains key then
          collectDepsWithToolchainRec R tc rest visited
        else
          match collectDepsWithToolchainRec R tc d.underlying.deps (key :: visited) with
          | .error e => .error e
          | .ok (sub, v1) =>
            match collectDepsWithToolchainRec R tc rest v1 with
            | .error e => .error e
            | .ok (tail, v2) => .ok (lib :: (sub ++ tail), v2)
termination_by deps _ => sizeOf deps
decreasing_by
  all_goals
    first
      | (simp; omega)
      | (cases d with
          | lib l => cases l <;> simp [Dep.underlying, Library.deps] <;> omega
          | mtl b l => cases l <;> simp [Dep.underlying, Library.deps] <;> omega)


mutual

/-- One iteration of the `for` loop of `collectDepsWithToolchainRec`,
written with structural recursion (the dependency list of the wrapped
library is extracted by pattern matching) so that the collector evaluates
by kernel reduction.  `collectL_eq_rec` proves the loop equal to the direct
transcription `collectDepsWithToolchainRec`. -/
def collectOne (R : Registry) (tc : Toolchain) (d : Dep) (visited : List String) :
    Except String (List Library × List String) :=
  match Dep.ccLibrary R (some tc) d with
  | .error e => .error e
  | .ok lib =>
    match lib.outKey with
    | .error e => .error e
    | .ok key =>
      if visited.contains key then .ok ([], visited)
      else
        match d with
        | .lib (.mk _ _ _ _ _ _ ldeps _ _ _) =>
          match collectL R tc ldeps (key :: visited) with
          | .error e => .error e
          | .ok (sub, v1) => .ok (lib :: sub, v1)
        | .mtl _ (.mk _ _ _ _ _ _ ldeps _ _ _) =>
          match collectL R tc ldeps (key :: visited) with
          | .error e => .error e
          | .ok (sub, v1) => .ok (lib :: sub, v1)

/-- The loop of `collectDepsWithToolchainRec` over a dependency list,
threading the visited set. -/
def collectL (R : Registry) (tc : Toolchain) (ds : List Dep) (visited : List String) :
    Except String (List Library × List String) :=
  match ds with
  | [] => .ok ([], visited)
  | d :: rest =>
    match collectOne R tc d visited with
    | .error e => .error e
    | .ok (sub, v1) =>
      match collectL R tc rest v1 with
      | .error e => .error e
      | .ok (tail, v2) => .ok (sub ++ tail, v2)

end

theorem collectL_nil (R : Registry) (tc : Toolchain) (visited : List String) :
    collectL R tc [] visited = .ok ([], visited) := rfl

theorem collectL_cons (R : Registry) (tc : Toolchain) (d : Dep) (rest : List Dep)
    (visited : List String) :
    collectL R tc (d :: rest) visited =
      match collectOne R tc d visited with
      | .error e => .error e
      | .ok (sub, v1) =>
        match collectL R tc rest v1 with
        | .error e => .error e
        | .ok (tail, v2) => .ok (sub ++ tail, v2) := rfl

theorem collectOne_eq (R : Registry) (tc : Toolchain) (d : Dep) (visited : List String) :
    collectOne R tc d visited =
      match Dep.ccLibrary R (some tc) d with
      | .error e => .error e
      | .ok lib =>
        match lib.outKey with
        | .error e => .error e
        | .ok key =>
          if visited.contains key then .ok ([], visited)
          else
            match collectL R tc d.underlying.deps (key :: visited) with
            | .error e => .error e
            | .ok (sub, v1) => .ok (lib :: sub, v1) := by
  cases d with
  | lib l => cases l; rfl
  | mtl b l => cases l; rfl

/-- The structural loop computes exactly `collectDepsWithToolchainRec`. -/
theorem collectL_eq_rec (R : Registry) (tc : Toolchain) :
    ∀ (n : Nat) (ds : List Dep), sizeOf ds ≤ n → ∀ (visited : List String),
      collectL R tc ds visited = collectDepsWithToolchainRec R tc ds visited := by
  intro n
  induction n with
  | zero =>
    intro ds h
    exfalso
    cases ds <;> simp at h
  | succ n ih =>
    intro ds hsz visited
    match ds with
    | [] => rw [collectL_nil, collectDepsWithToolchainRec]
    | d :: rest =>
      rw [collectL_cons, collectOne_eq, collectDepsWithToolchainRec]
      have hrest : sizeOf rest ≤ n := by cases d <;> simp at hsz <;> omega
      have hld : sizeOf d.underlying.deps ≤ n := by
        cases d with
        | lib l => cases l <;> simp [Dep.underlying, Library.deps] at hsz ⊢ <;> omega
        | mtl b l => cases l <;> simp [Dep.underlying, Library.deps] at hsz ⊢ <;> omega
      cases hcc : Dep.ccLibrary R (some tc) d with
      | error e => rfl
      | ok lib =>
        dsimp only
        cases hk : lib.outKey with
        | error e => rfl
        | ok key =>
          dsimp only
          by_cases hv : visited.contains key
          · simp only [hv, if_true]
            rw [ih rest hrest]
            cases collectDepsWithToolchainRec R tc rest visited with
            | error e => rfl
            | ok p =>
              cases p
              simp
          · rw [if_neg hv, if_neg hv]
            rw [ih _ hld]
            cases collectDepsWithToolchainRec R tc d.underlying.deps (key :: visited) with
            | error e => rfl
            | ok p =>
              cases p with
              | mk sub v1 =>
                dsimp only
                rw [ih rest hrest]
                cases collectDepsWithToolchainRec R tc rest v1 with
                | error e => rfl
                | ok q => cases q; simp

/-- `collectDepsWithToolchain` from cc.go: run the recursive collector on an
empty visited map.  Defined over the structural loop `collectL` (equal to
`collectDepsWithToolchainRec` by `collectL_eq_rec`) so that it evaluates by
kernel reduction. -/
def collectDepsWithToolchain (R : Registry) (tc : Toolchain) (deps : List Dep) :
    Except String (List Library) :=
  match collectL R tc deps [] with
  | .error e => .error e
  | .ok (libs, _) => .ok libs

/-- The explicit fields of `GccToolchain` in the toolchain file.  The
standard dependencies (`Deps`) and `LinkerScript` fields mention `Dep` and
are therefore supplied separately to `GccToolchain.make`.  The Go field
`As` is called `asm` here (`as` reads poorly as a field name). -/
structure GccParams where
  ar : PathT
  asm : PathT
  cc : PathT
  cpp : PathT
  cxx : PathT
  objcopy : PathT
  ld : PathT
  includes : List PathT
  compilerFlags : List String
  linkerFlags : List String
  toolchainName : String
  archName : String
  targetName : String
  compatibleWith : List String

/-- `GccToolchain.ObjectFile`: the compile command. -/
def gccObjectFileCmd (g : GccParams) (outP depfile : PathT) (flags : List String)
    (includes : List PathT) (srcP : PathT) : String :=
  let includesStr :=
    String.join (includes.map (fun i => "-I" ++ qp i ++ " ")) ++
    String.join (g.includes.map (fun i => "-isystem " ++ qp i ++ " "))
  qp g.cxx ++ " -pipe -c -o " ++ qp outP ++ " -MD -MF " ++ qp depfile ++ " " ++
    String.intercalate " " (g.compilerFlags ++ flags) ++ " " ++ includesStr ++ " " ++ qp srcP

/-- `GccToolchain.StaticLibrary`: delete any pre-existing archive, then
create the archive from scratch (`rm %q 2>/dev/null ; %q rcs %q %s`). -/
def gccStaticLibraryCmd (g : GccParams) (outP : PathT) (objs : List PathT) : String :=
  "rm " ++ qp outP ++ " 2>/dev/null ; " ++ qp g.ar ++ " rcs " ++ qp outP ++ " " ++
    joinQuoted objs

/-- `GccToolchain.SharedLibrary`. -/
def gccSharedLibraryCmd (g : GccParams) (outP : PathT) (objs : List PathT) : String :=
  qp g.cxx ++ " -pipe -shared -o " ++ qp outP ++ " " ++ joinQuoted objs

/-- `GccToolchain.Binary`: always-link libraries are bracketed between
`-Wl,-whole-archive` and `-Wl,-no-whole-archive`; other libraries follow the
end marker; an explicit script takes precedence over the toolchain's
linker script for the trailing `-T` flag. -/
def gccBinaryCmd (g : GccParams) (gccLinkerScript : Option PathT) (outP : PathT)
    (objs alwaysLinkLibs libs : List PathT) (flags : List String)
    (script : Option PathT) : String :=
  let flags1 := g.linkerFlags ++ flags
  let flags2 :=
    match script with
    | some sc => flags1 ++ ["-T", qp sc]
    | none =>
      match gccLinkerScript with
      | some sc => flags1 ++ ["-T", qp sc]
      | none => flags1
  qp g.cxx ++ " -pipe -o " ++ qp outP ++ " " ++ joinQuoted objs ++
    "-Wl,-whole-archive " ++ joinQuoted alwaysLinkLibs ++
    "-Wl,-no-whole-archive " ++ joinQuoted libs ++ " " ++
    String.intercalate " " flags2

/-- `GccToolchain.BlobObject`. -/
def gccBlobObjectCmd (g : GccParams) (outP srcP : PathT) : String :=
  qp g.ld ++ " -r -b binary -o " ++ qp outP ++ " " ++ qp srcP

/-- `GccToolchain.RawBinary`. -/
def gccRawBinaryCmd (g : GccParams) (outP elfSrc : PathT) : String :=
  qp g.objcopy ++ " -O binary " ++ qp elfSrc ++ " " ++ qp outP

/-- A `GccToolchain` value as a `Toolchain`: name is `ToolchainName`, the
command generators are the gcc ones, the script is the `LinkerScript`
field, and `Accepts` admits exactly the names in `CompatibleWith`. -/
def GccToolchain.make (g : GccParams) (gccDeps : List Dep)
    (linkerScript : Option PathT) : Toolchain :=
  .mk
    { name := g.toolchainName
      objectFileCmd := gccObjectFileCmd g
      staticLibraryCmd := gccStaticLibraryCmd g
      sharedLibraryCmd := gccSharedLibraryCmd g
      binaryCmd := gccBinaryCmd g linkerScript
      blobObjectCmd := gccBlobObjectCmd g
      rawBinaryCmd := gccRawBinaryCmd g
      script := linkerScript
      acceptsP := some (fun n => g.compatibleWith.contains n) }
    gccDeps

/-- Modelled from the spec: a build step registered with the external
engine: output path, inputs, optional dependency file, shell command,
description. -/
structure BuildStep where
  outP : PathT
  ins : List PathT
  depfile : Option PathT
  cmd : String
  descr : String
deriving DecidableEq, Repr

/-- Modelled from the spec: the engine context (`core.Context`), owning the
set of absolute output paths already built in this process and the
registered build steps. -/
structure Ctx where
  built : List String
  steps : List BuildStep
deriving DecidableEq, Repr

/-- Register a build step (`ctx.AddBuildStep`). -/
def Ctx.addStep (ctx : Ctx) (s : BuildStep) : Ctx :=
  { ctx with steps := ctx.steps ++ [s] }

/-- Modelled from the spec: `ctx.Built` — query whether an absolute path was
already built in this process, registering it on first query.  Returns the
old answer and the updated context. -/
def Ctx.builtQ (ctx : Ctx) (p : String) : Bool × Ctx :=
  if ctx.built.contains p then (true, ctx)
  else (false, { ctx with built := p :: ctx.built })

/-- The outcome of a build entrypoint: either a value with the updated
context, or a process abort (`core.Fatal` or a runtime panic) carrying the
message and the context at the time of the abort (so "no step emitted
before the abort" is statable). -/
inductive BRes (α : Type) where
  | ok (val : α) (ctx : Ctx)
  | fatal (msg : String) (ctx : Ctx)
deriving DecidableEq, Repr

/-- Marker message for exhausted recursion fuel in the model; the Go
recursion needs no fuel, and this result never arises when the fuel exceeds
the recursion depth. -/
def outOfFuelMsg : String := "RECURSION_LIMIT"

/-- `ObjectFile` from cc.go. -/
structure ObjectFile where
  srcF : PathT
  includes : List PathT
  flags : List String
  toolchain : Option Toolchain

/-- `ObjectFile.out()`: the source path prefixed with the toolchain's name
and rewritten to extension `o`. -/
def ObjectFile.outPath (R : Registry) (o : ObjectFile) : Except String PathT :=
  match toolchainOrDefault R o.toolchain with
  | .error e => .error e
  | .ok tc => .ok ((o.srcF.withPfx (tc.name ++ "/")).withExt "o")

/-- `ObjectFile.Build`: one compile step with a dependency file. -/
def ObjectFile.build (R : Registry) (o : ObjectFile) (ctx : Ctx) : BRes Unit :=
  match toolchainOrDefault R o.toolchain with
  | .error e => .fatal e ctx
  | .ok tc =>
    let outP := (o.srcF.withPfx (tc.name ++ "/")).withExt "o"
    let depfile := outP.withExt "d"
    let cmd := tc.tcore.objectFileCmd outP depfile o.flags o.includes o.srcF
    .ok () (ctx.addStep
      { outP := outP, ins := [o.srcF], depfile := some depfile, cmd := cmd
        descr := "CC (toolchain: " ++ tc.name ++ ") " ++ outP.relative })

/-- `BlobObject` from cc.go (`In` is called `inF`; `in` is a keyword). -/
structure BlobObject where
  inF : PathT
  toolchain : Option Toolchain

/-- `BlobObject.out()`. -/
def BlobObject.outPath (R : Registry) (b : BlobObject) : Except String PathT :=
  match toolchainOrDefault R b.toolchain with
  | .error e => .error e
  | .ok tc => .ok ((b.inF.withPfx (tc.name ++ "/")).withExt "blob.o")

/-- `BlobObject.Build`: the trace label and description use the resolved
(`toolchainOrDefault`) toolchain, but the command is generated by calling
`blob.Toolchain.BlobObject` on the raw field — a nil-interface method call
(panic) when the field is unset. -/
def BlobObject.build (R : Registry) (b : BlobObject) (ctx : Ctx) : BRes Unit :=
  match toolchainOrDefault R b.toolchain with
  | .error e => .fatal e ctx
  | .ok tc =>
    let outP := (b.inF.withPfx (tc.name ++ "/")).withExt "blob.o"
    match b.toolchain with
    | none => .fatal nilPanicMsg ctx
    | some btc =>
      .ok () (ctx.addStep
        { outP := outP, ins := [b.inF], depfile := none
          cmd := btc.tcore.blobObjectCmd outP b.inF
          descr := "BLOB (toolchain: " ++ tc.name ++ ") " ++ outP.relative })

/-- The loop of `compileSources` from cc.go: build one `ObjectFile` per
source, with the given include list, accumulating the object paths. -/
def compileSrcList (R : Registry) (includes : List PathT) (flags : List String)
    (tc : Toolchain) : List PathT → Ctx → BRes (List PathT)
  | [], ctx => .ok [] ctx
  | s :: ss, ctx =>
    match ObjectFile.build R { srcF := s, includes := includes, flags := flags, toolchain := some tc } ctx with
    | .fatal m c => .fatal m c
    | .ok _ ctx1 =>
      match compileSrcList R includes flags tc ss ctx1 with
      | .fatal m c => .fatal m c
      | .ok objs ctx2 => .ok (((s.withPfx (tc.name ++ "/")).withExt "o") :: objs) ctx2

/-- `compileSources` from cc.go: the include-search list is the source root
followed by each dependency's declared include directories in discovery
order. -/
def compileSources (R : Registry) (srcs : List PathT) (flags : List String)
    (deps : List Library) (tc : Toolchain) (ctx : Ctx) : BRes (List PathT) :=
  compileSrcList R (PathT.src "" :: deps.flatMap Library.includes) flags tc srcs ctx

/-- The blob loop of `Library.build`: build each blob as a `BlobObject`
bound to the resolved toolchain, accumulating the blob-object paths. -/
def buildBlobs (R : Registry) (tc : Toolchain) : List PathT → Ctx → BRes (List PathT)
  | [], ctx => .ok [] ctx
  | b :: bs, ctx =>
    match BlobObject.build R { inF := b, toolchain := some tc } ctx with
    | .fatal m c => .fatal m c
    | .ok _ ctx1 =>
      match buildBlobs R tc bs ctx1 with
      | .fatal m c => .fatal m c
      | .ok outs ctx2 => .ok (((b.withPfx (tc.name ++ "/")).withExt "blob.o") :: outs) ctx2

/-- The loop of `Library.build` / `Binary.build` over the collected
closure, parameterized by the builder applied to each member (instantiated
below with `Library.Build` at one smaller recursion depth). -/
def buildLibsWith (bld : Library → Ctx → BRes Unit) : List Library → Ctx → BRes Unit
  | [], ctx => .ok () ctx
  | l :: ls, ctx =>
    match bld l ctx with
    | .fatal m c => .fatal m c
    | .ok _ ctx1 => buildLibsWith bld ls ctx1

/-- `Library.Build` (capital) from cc.go, parameterized by the lowercase
body: the trace label renders `lib.Out.Relative()` before anything else, a
nil-interface method call (panic) when `Out` is nil; otherwise run the
body. -/
def libBuildCore (body : Library → Ctx → BRes Unit) (lib : Library) (ctx : Ctx) : BRes Unit :=
  match lib.outp with
  | none => .fatal nilPanicMsg ctx
  | some _ => body lib ctx

/-- `Library.build` (lowercase) from cc.go, parameterized by the routine
that builds the collected closure members: require `Out`; return
immediately if the output path was already built (the `ctx.Built` query
registers it); resolve the toolchain; collect the closure of
(standard deps, then this library); build every closure member; compile
own sources; append pre-built objects and blob objects; emit exactly one
archive (static) or link (shared) step. -/
def libBuildBodyCore (R : Registry) (buildDeps : List Library → Ctx → BRes Unit)
    (lib : Library) (ctx : Ctx) : BRes Unit :=
  match lib.outp with
  | none => .fatal "Out field is required for cc.Library" ctx
  | some op =>
    match ctx.builtQ op.absolute with
    | (true, ctx1) => .ok () ctx1
    | (false, ctx1) =>
      match toolchainOrDefault R lib.toolchain with
      | .error e => .fatal e ctx1
      | .ok tc =>
        match collectDepsWithToolchain R tc (tc.stdDeps ++ [Dep.lib lib]) with
        | .error e => .fatal e ctx1
        | .ok deps =>
          match buildDeps deps ctx1 with
          | .fatal m c => .fatal m c
          | .ok _ ctx2 =>
            match compileSources R lib.srcs lib.compilerFlags deps tc ctx2 with
            | .fatal m c => .fatal m c
            | .ok objs0 ctx3 =>
              match buildBlobs R tc lib.blobs ctx3 with
              | .fatal m c => .fatal m c
              | .ok blobObjs ctx4 =>
                let objs := (objs0 ++ lib.objs) ++ blobObjs
                let cmd := if lib.shared then tc.tcore.sharedLibraryCmd op objs
                  else tc.tcore.staticLibraryCmd op objs
                let descr := (if lib.shared then "LD (toolchain: " else "AR (toolchain: ")
                  ++ tc.name ++ ") " ++ op.relative
                .ok () (ctx4.addStep
                  { outP := op, ins := objs, depfile := none, cmd := cmd, descr := descr })

/-- `Library.build` at recursion depth `fuel`: closure members are built
via `Library.Build` at depth `fuel - 1`; at depth `0` a nested dependency
build reports `outOfFuelMsg` instead (the Go recursion needs no such bound;
it is bounded by the engine's built-set, and every result below is either
independent of `fuel` or stated for a sufficient `fuel`). -/
def libBuildBody (R : Registry) : Nat → Library → Ctx → BRes Unit
  | 0 => libBuildBodyCore R (fun _ ctx => .fatal outOfFuelMsg ctx)
  | fuel + 1 => libBuildBodyCore R (buildLibsWith (libBuildCore (libBuildBody R fuel)))

/-- `Library.Build` (capital) from cc.go at recursion depth `fuel`. -/
def libBuild (R : Registry) (fuel : Nat) : Library → Ctx → BRes Unit :=
  libBuildCore (libBuildBody R fuel)

/-- The dependency-build loop of `Library.build` / `Binary.build` at
recursion depth `fuel`. -/
def buildLibs (R : Registry) (fuel : Nat) : List Library → Ctx → BRes Unit :=
  buildLibsWith (libBuild R fuel)

/-- `libBuildBody` at positive depth is the body wired to the loop. -/
theorem libBuildBody_succ (R : Registry) (fuel : Nat) :
    libBuildBody R (fuel + 1) = libBuildBodyCore R (buildLibs R fuel) := rfl

/-- `Library.MultipleToolchains` from cc.go: requires a non-nil `Out`
(fatal otherwise) and wraps the library keyed by its base output path. -/
def MultipleToolchains (l : Library) : Except String Dep :=
  match l.outp with
  | none => .error "Out field is required for cc.Library"
  | some op => .ok (Dep.mtl op l)

/-- `multipleToolchainLibrary.Build` from cc.go: build the default-toolchain
variant. -/
def mtlBuild (R : Registry) (fuel : Nat) (baseOut : PathT) (l : Library)
    (ctx : Ctx) : BRes Unit :=
  match DefaultToolchain R with
  | .error e => .fatal e ctx
  | .ok dflt =>
    match mtlCcLibrary R baseOut l (some dflt) with
    | .error e => .fatal e ctx
    | .ok tcLib => libBuild R fuel tcLib ctx

/-- `Binary` from cc.go. -/
structure Binary where
  outP : Option PathT
  srcs : List PathT
  compilerFlags : List String
  linkerFlags : List String
  deps : List Dep
  script : Option PathT
  toolchain : Option Toolchain

/-- The output path of a closure member as used by `Binary.build`
(`dep.Out`); closure members always carry one (the collector has already
keyed them by it), so the sentinel is unreachable there. -/
def libOut (l : Library) : PathT := l.outp.getD (PathT.out "<nil>")

/-- The partition loop of `Binary.build`: one pass over the closure,
appending every member's output to the link inputs and splitting the
outputs into the always-link and other groups in closure order. -/
def binPartition : List Library → List PathT × List PathT × List PathT
  | [] => ([], [], [])
  | d :: ds =>
    let (ins, al, ot) := binPartition ds
    if d.alwaysLink then (libOut d :: ins, libOut d :: al, ot)
    else (libOut d :: ins, al, libOut d :: ot)

/-- `Binary.build` (lowercase) from cc.go: resolve the toolchain, collect
the closure of (own deps, then standard deps), build each member, compile
own sources, partition the closure by the always-link flag, include the
explicit or default link script as an input, and emit exactly one link
step. -/
def binBuildBody (R : Registry) (fuel : Nat) (bin : Binary) (ctx : Ctx) : BRes Unit :=
  match toolchainOrDefault R bin.toolchain with
  | .error e => .fatal e ctx
  | .ok tc =>
    match collectDepsWithToolchain R tc (bin.deps ++ tc.stdDeps) with
    | .error e => .fatal e ctx
    | .ok deps =>
      match fuel with
      | 0 => .fatal outOfFuelMsg ctx
      | fuel' + 1 =>
        match buildLibs R fuel' deps ctx with
        | .fatal m c => .fatal m c
        | .ok _ ctx1 =>
          match compileSources R bin.srcs bin.compilerFlags deps tc ctx1 with
          | .fatal m c => .fatal m c
          | .ok objs ctx2 =>
            let (depOuts, alwaysLinkLibs, otherLibs) := binPartition deps
            let ins0 := objs ++ depOuts
            let ins :=
              match bin.script with
              | some sc => ins0 ++ [sc]
              | none =>
                match tc.script with
                | some sc => ins0 ++ [sc]
                | none => ins0
            match bin.outP with
            | none => .fatal nilPanicMsg ctx2
            | some op =>
              let cmd := tc.tcore.binaryCmd op objs alwaysLinkLibs otherLibs
                bin.linkerFlags bin.script
              .ok () (ctx2.addStep
                { outP := op, ins := ins, depfile := none, cmd := cmd
                  descr := "LD (toolchain: " ++ tc.name ++ ") " ++ op.relative })

/-- `Binary.Build` from cc.go: a nil `Out` is an explicit fatal
configuration error, checked before anything else. -/
def binBuild (R : Registry) (fuel : Nat) (bin : Binary) (ctx : Ctx) : BRes Unit :=
  match bin.outP with
  | none => .fatal "Out field is required for cc.Binary" ctx
  | some _ => binBuildBody R fuel bin ctx

/-- An abstract resolved dependency-reference graph for the termination
analysis of the collector: finitely many reference ids, each resolving
(as `CcLibrary` would, under the fixed toolchain) to an absolute output
path and a list of further reference ids.  Unlike the tree-shaped `Dep`
values constructible in this file, a custom Go `Dep` implementation can
produce cyclic reference graphs, which this model admits. -/
structure DepGraph where
  n : Nat
  outOf : Fin n → String
  depsOf : Fin n → List (Fin n)

/-- The collector's recursion scheme on a `DepGraph`, with an explicit
recursion-depth bound `fuel`: each visit marks the resolved path before
traversing the node's own references (exactly as
`collectDepsWithToolchainRec` does), and descending one level costs one
unit of fuel.  Returns `none` if the depth bound is exhausted. -/
def collectGraph (g : DepGraph) :
    Nat → List (Fin g.n) → List String → Option (List String × List String)
  | _, [], visited => some ([], visited)
  | fuel, d :: rest, visited =>
    if (g.outOf d) ∈ visited then collectGraph g fuel rest visited
    else
      match fuel with
      | 0 => none
      | f + 1 =>
        match collectGraph g f (g.depsOf d) (g.outOf d :: visited) with
        | none => none
        | some (sub, v1) =>
          match collectGraph g (f + 1) rest v1 with
          | none => none
          | some (tail, v2) => some (g.outOf d :: (sub ++ tail), v2)
termination_by fuel ds _ => (fuel, ds.length)

/-! Concrete fixtures used by witnesses and counterexamples. -/

/-- A toolchain core for examples: command generators tag their output with
the toolchain name. -/
def exCore (n : String) (acc : Option (String → Bool)) : ToolchainCore :=
  { name := n
    objectFileCmd := fun o _ _ _ s => n ++ ":cc:" ++ o.rel ++ ":" ++ s.rel
    staticLibraryCmd := fun o _ => n ++ ":ar:" ++ o.rel
    sharedLibraryCmd := fun o _ => n ++ ":ld:" ++ o.rel
    binaryCmd := fun o _ _ _ _ _ => n ++ ":bin:" ++ o.rel
    blobObjectCmd := fun o i => n ++ ":blob:" ++ o.rel ++ ":" ++ i.rel
    rawBinaryCmd := fun o i => n ++ ":raw:" ++ o.rel ++ ":" ++ i.rel
    script := none
    acceptsP := acc }

/-- The example default toolchain, with no `Accepts` capability. -/
def tcGcc : Toolchain := .mk (exCore "gcc" none) []

/-- A second example toolchain, with no `Accepts` capability. -/
def tcArm : Toolchain := .mk (exCore "arm" none) []

/-- A testing toolchain that accepts libraries pinned to `arm`. -/
def tcAcc : Toolchain := .mk (exCore "test" (some (fun n => n = "arm"))) []

/-- An example registry: `gcc` is the default, `arm` and `test` are also
registered. -/
def Rex : Registry :=
  { toolchains := [("gcc", tcGcc), ("arm", tcArm), ("test", tcAcc)]
    defaultName := "gcc" }

/-- An empty engine context. -/
def ctx0 : Ctx := { built := [], steps := [] }

/-- A library pinned to `arm`. -/
def exLibArm : Library :=
  .mk (some (.out "a.a")) [] [] [] [] [] [] false false (some tcArm)

/-- A library pinned to `gcc`. -/
def exLibGcc : Library :=
  .mk (some (.out "g.a")) [] [] [] [] [] [] false false (some tcGcc)

/-- C2.  For a Library pinned to toolchain `X`, resolution under requesting
toolchain `Y` succeeds (returning the library) exactly when `X`'s name
equals `Y`'s name or `Y`'s acceptance predicate admits `X`, and is a fatal
error otherwise; a toolchain without an acceptance predicate accepts
nothing but itself; and acceptance is asymmetric. -/
theorem c2_cclibrary_compat_gating (R : Registry) (lib : Library) (X Y : Toolchain)
    (hpin : lib.toolchain = some X) :
    ((Library.ccLibrary R lib (some Y) = .ok lib) ↔
      (Y.name = X.name ∨ (∃ f, Y.tcore.acceptsP = some f ∧ f X.name = true)))
    ∧ ((¬ (Y.name = X.name ∨ (∃ f, Y.tcore.acceptsP = some f ∧ f X.name = true))) →
        ∃ msg, Library.ccLibrary R lib (some Y) = .error msg)
    ∧ (Y.tcore.acceptsP = none → (ToolchainAccepts Y X = true ↔ Y.name = X.name))
    ∧ (∃ A B : Toolchain, ToolchainAccepts A B = true ∧ ToolchainAccepts B A = false) := by
  have hacc : ToolchainAccepts Y X = true ↔
      (Y.name = X.name ∨ (∃ f, Y.tcore.acceptsP = some f ∧ f X.name = true)) := by
    unfold ToolchainAccepts
    by_cases hn : Y.name = X.name
    · simp [hn]
    · simp only [hn, if_false]
      cases hap : Y.tcore.acceptsP with
      | none => simp [hn]
      | some f => simp [hn, hap]
  have hres : Library.ccLibrary R lib (some Y) =
      (if ToolchainAccepts Y X then .ok lib
       else match lib.outp with
            | none => .error nilPanicMsg
            | some p => .error ("Library " ++ p.relative ++ " does not support toolchain "
                ++ Y.name)) := by
    unfold Library.ccLibrary
    rw [hpin]
    rfl
  refine ⟨?_, ?_, ?_, ?_⟩
  · rw [hres]
    by_cases h : ToolchainAccepts Y X = true
    · simp only [h, if_true]
      simp [hacc.mp h]
    · simp only [Bool.not_eq_true] at h
      simp only [h]
      constructor
      · intro hcontra
        exfalso
        cases hout : lib.outp <;> simp [hout] at hcontra
      · intro hc
        exact absurd ((hacc.mpr hc)) (by simp [h])
  · intro hno
    rw [hres]
    have h : ToolchainAccepts Y X = false := by
      cases hb : ToolchainAccepts Y X
      · rfl
      · exact absurd (hacc.mp hb) hno
    simp only [h]
    cases hout : lib.outp <;> simp
  · intro hnone
    rw [hacc, hnone]
    simp
  · refine ⟨tcAcc, tcArm, ?_, ?_⟩ <;> rfl

/-- Witness for C2: the `test` toolchain (acceptance list `{arm}`) resolves
a library pinned to `arm`; all four conjuncts instantiated. -/
theorem c2_cclibrary_compat_gating_witness :
    ((Library.ccLibrary Rex exLibArm (some tcAcc) = .ok exLibArm) ↔
      (tcAcc.name = tcArm.name ∨ (∃ f, tcAcc.tcore.acceptsP = some f ∧ f tcArm.name = true)))
    ∧ ((¬ (tcAcc.name = tcArm.name ∨ (∃ f, tcAcc.tcore.acceptsP = some f ∧ f tcArm.name = true))) →
        ∃ msg, Library.ccLibrary Rex exLibArm (some tcAcc) = .error msg)
    ∧ (tcAcc.tcore.acceptsP = none → (ToolchainAccepts tcAcc tcArm = true ↔ tcAcc.name = tcArm.name))
    ∧ (∃ A B : Toolchain, ToolchainAccepts A B = true ∧ ToolchainAccepts B A = false) :=
  c2_cclibrary_compat_gating Rex exLibArm tcArm tcAcc rfl

/-- C9.  For a plain `Library`, whenever the compatibility check passes,
`CcLibrary` returns the library itself completely unchanged — in
particular the requesting toolchain is not bound into the result. -/
theorem c9_cclibrary_returns_self (R : Registry) (lib : Library) (X Y : Toolchain)
    (hres : toolchainOrDefault R lib.toolchain = .ok X)
    (hacc : ToolchainAccepts Y X = true) :
    Library.ccLibrary R lib (some Y) = .ok lib := by
  unfold Library.ccLibrary
  rw [show toolchainOrDefault R (some Y) = .ok Y from rfl]
  dsimp only
  rw [hres]
  dsimp only
  rw [hacc]
  simp

/-- Witness for C9: resolving the `arm`-pinned library under `test`
returns it unchanged. -/
theorem c9_cclibrary_returns_self_witness :
    Library.ccLibrary Rex exLibArm (some tcAcc) = .ok exLibArm :=
  c9_cclibrary_returns_self Rex exLibArm tcArm tcAcc rfl rfl

/-- C7.  A `Library` or `Binary` whose `Out` field is nil aborts the
process from its `Build` entrypoint — with the unchanged context, so no
build step from the unit was emitted.  (For `Binary` this is the explicit
`Out field is required` fatal; for `Library` the trace label's
`lib.Out.Relative()` call panics first, which is also an abort with a
message before any step.) -/
theorem c7_nil_out_fatal (R : Registry) (fuel : Nat) (lib : Library) (bin : Binary)
    (ctx : Ctx) (hl : lib.outp = none) (hb : bin.outP = none) :
    (∃ msg, libBuild R fuel lib ctx = .fatal msg ctx)
    ∧ (∃ msg, binBuild R fuel bin ctx = .fatal msg ctx) := by
  constructor
  · refine ⟨nilPanicMsg, ?_⟩
    unfold libBuild libBuildCore
    rw [hl]
  · refine ⟨"Out field is required for cc.Binary", ?_⟩
    rw [binBuild, hb]

/-- A library with no output path. -/
def exLibNilOut : Library := .mk none [] [] [] [] [] [] false false none

/-- A binary with no output path. -/
def exBinNilOut : Binary :=
  { outP := none, srcs := [], compilerFlags := [], linkerFlags := [],
    deps := [], script := none, toolchain := none }

/-- Witness for C7 at a concrete library, binary and context. -/
theorem c7_nil_out_fatal_witness :
    (∃ msg, libBuild Rex 3 exLibNilOut ctx0 = .fatal msg ctx0)
    ∧ (∃ msg, binBuild Rex 3 exBinNilOut ctx0 = .fatal msg ctx0) :=
  c7_nil_out_fatal Rex 3 exLibNilOut exBinNilOut ctx0 rfl rfl

/-- C8 (failing input).  `BlobObject.Build` with an unset toolchain does
not fall back to the default toolchain: the command is generated by calling
`BlobObject` on the raw nil field, a nil-interface method call that aborts
the process — while the same blob with the default toolchain spelled out
builds normally, its command generated by that toolchain. -/
theorem c8_blob_nil_toolchain_panics :
    BlobObject.build Rex { inF := PathT.src "data.bin", toolchain := none } ctx0
      = .fatal nilPanicMsg ctx0
    ∧ (∃ st, BlobObject.build Rex { inF := PathT.src "data.bin", toolchain := some tcGcc } ctx0
        = .ok () (ctx0.addStep st)
        ∧ st.cmd = tcGcc.tcore.blobObjectCmd
            (((PathT.src "data.bin").withPfx ("gcc/")).withExt "blob.o") (PathT.src "data.bin")) := by
  refine ⟨rfl, ⟨_, rfl, rfl⟩⟩

/-- C5.  The static-archive command is two shell commands separated by
`;`: first `rm` of the output path (silencing a missing-file error), then
the archiver creating the archive from scratch from exactly the given
objects, every path quoted. -/
theorem c5_static_archive_rm_first (g : GccParams) (outP : PathT) (objs : List PathT)
    (hne : objs ≠ []) :
    ∃ rmPart arPart,
      gccStaticLibraryCmd g outP objs = rmPart ++ " ; " ++ arPart
      ∧ rmPart = "rm " ++ goQuote outP.absolute ++ " 2>/dev/null"
      ∧ arPart = goQuote g.ar.absolute ++ " rcs " ++ goQuote outP.absolute ++ " "
          ++ joinQuoted objs
      ∧ joinQuoted objs = String.join (objs.map (fun p => goQuote p.absolute ++ " ")) := by
  refine ⟨"rm " ++ goQuote outP.absolute ++ " 2>/dev/null",
    goQuote g.ar.absolute ++ " rcs " ++ goQuote outP.absolute ++ " " ++ joinQuoted objs,
    ?_, rfl, rfl, rfl⟩
  unfold gccStaticLibraryCmd qp
  simp [String.append_assoc]

/-- Witness for C5 at a concrete toolchain and non-empty object list. -/
theorem c5_static_archive_rm_first_witness :
    ([PathT.out "x.o", PathT.out "y.o"] ≠ ([] : List PathT))
    ∧ ∃ rmPart arPart,
      gccStaticLibraryCmd
          { ar := .tool "ar", asm := .tool "as", cc := .tool "gcc", cpp := .tool "gcc -E"
            cxx := .tool "g++", objcopy := .tool "objcopy", ld := .tool "ld"
            includes := [], compilerFlags := [], linkerFlags := []
            toolchainName := "native-gcc", archName := "x86_64", targetName := ""
            compatibleWith := [] }
          (PathT.out "lib.a") [PathT.out "x.o", PathT.out "y.o"]
        = rmPart ++ " ; " ++ arPart
      ∧ rmPart = "rm " ++ goQuote (PathT.out "lib.a").absolute ++ " 2>/dev/null"
      ∧ arPart = goQuote (PathT.tool "ar").absolute ++ " rcs "
          ++ goQuote (PathT.out "lib.a").absolute ++ " "
          ++ joinQuoted [PathT.out "x.o", PathT.out "y.o"]
      ∧ joinQuoted [PathT.out "x.o", PathT.out "y.o"]
          = String.join ([PathT.out "x.o", PathT.out "y.o"].map
              (fun p => goQuote p.absolute ++ " ")) :=
  ⟨by decide,
    c5_static_archive_rm_first
      { ar := .tool "ar", asm := .tool "as", cc := .tool "gcc", cpp := .tool "gcc -E"
        cxx := .tool "g++", objcopy := .tool "objcopy", ld := .tool "ld"
        includes := [], compilerFlags := [], linkerFlags := []
        toolchainName := "native-gcc", archName := "x86_64", targetName := ""
        compatibleWith := [] }
      (PathT.out "lib.a") [PathT.out "x.o", PathT.out "y.o"] (by decide)⟩

/-- Right cancellation for string append, via the underlying data lists. -/
theorem strAppendRightCancel {a b c : String} (h : a ++ c = b ++ c) : a = b := by
  have hd := congrArg String.data h
  simp only [String.data_append] at hd
  exact String.ext (List.append_cancel_right hd)

/-- A library wrapped without a pinned toolchain, for the C3 counterexample. -/
def exLibPlain : Library := .mk (some (.out "foo.a")) [] [] [] [] [] [] false false none

/-- C3 counterexample.  Resolving a multi-toolchain library under the
process-default toolchain does **not** return the original wrapped Library
unchanged: the returned copy's toolchain field is bound to the requested
(default) toolchain even in the default case. -/
theorem c3_counterexample :
    mtlCcLibrary Rex (PathT.out "foo.a") exLibPlain (some tcGcc) ≠ .ok exLibPlain := by
  intro h
  have h0 : mtlCcLibrary Rex (PathT.out "foo.a") exLibPlain (some tcGcc)
      = .ok (exLibPlain.setToolchain (some tcGcc)) := rfl
  rw [h0] at h
  have h1 := congrArg Library.toolchain (Except.ok.inj h)
  simp [Library.setToolchain, Library.toolchain, exLibPlain] at h1

/-- C3 (amended).  Under the resolved default toolchain (requested
explicitly by name, or left unset), resolution keeps the bare base output
path but binds the toolchain field to the requested toolchain; under any
toolchain whose name differs from the default's, the output path is the
base path prefixed with the toolchain's name plus `/` and the toolchain
field is bound to it; and variants for differently-named toolchains never
share an output path. -/
theorem c3_mtl_variants (R : Registry) (D : Toolchain) (baseOut : PathT) (l : Library)
    (hD : DefaultToolchain R = .ok D) :
    (mtlCcLibrary R baseOut l none = .ok (l.setToolchain (some D))
      ∧ (l.setToolchain (some D)).outp = l.outp)
    ∧ (∀ T, T.name = D.name →
        mtlCcLibrary R baseOut l (some T) = .ok (l.setToolchain (some T))
        ∧ (l.setToolchain (some T)).outp = l.outp)
    ∧ (∀ T, T.name ≠ D.name →
        mtlCcLibrary R baseOut l (some T)
          = .ok ((l.setOut (some (baseOut.withPfx (T.name ++ "/")))).setToolchain (some T))
        ∧ ((l.setOut (some (baseOut.withPfx (T.name ++ "/")))).setToolchain (some T)).outp
            = some (baseOut.withPfx (T.name ++ "/")))
    ∧ (∀ T1 T2 V1 V2, mtlCcLibrary R baseOut l (some T1) = .ok V1 →
        mtlCcLibrary R baseOut l (some T2) = .ok V2 →
        T1.name ≠ T2.name → l.outp = some baseOut → V1.outp ≠ V2.outp) := by
  have hsetT : ∀ (L : Library) tcO, (L.setToolchain tcO).outp = L.outp := by
    intro L tcO; cases L; rfl
  have hsetO : ∀ (L : Library) oO, (L.setOut oO).outp = oO := by
    intro L oO; cases L; rfl
  have hrun : ∀ T : Toolchain, mtlCcLibrary R baseOut l (some T) =
      .ok ((if T.name ≠ D.name then l.setOut (some (baseOut.withPfx (T.name ++ "/")))
            else l).setToolchain (some T)) := by
    intro T
    unfold mtlCcLibrary
    rw [show toolchainOrDefault R (some T) = .ok T from rfl]
    dsimp only
    rw [hD]
  have hpfxNe : ∀ (T : Toolchain), some baseOut ≠ some (baseOut.withPfx (T.name ++ "/")) := by
    intro T h
    have h' := Option.some.inj h
    cases baseOut with
    | src r => simp [PathT.withPfx] at h'
    | tool r => simp [PathT.withPfx] at h'
    | out r =>
      simp only [PathT.withPfx] at h'
      have hr := PathT.out.inj h'
      have hlen := congrArg String.length hr
      simp only [String.length_append, show ("/" : String).length = 1 from rfl] at hlen
      omega
  refine ⟨?_, ?_, ?_, ?_⟩
  · constructor
    · unfold mtlCcLibrary
      rw [show toolchainOrDefault R none = DefaultToolchain R from rfl, hD]
      dsimp only
      simp
    · exact hsetT l (some D)
  · intro T hT
    refine ⟨?_, hsetT l (some T)⟩
    rw [hrun T, if_neg (not_not_intro hT)]
  · intro T hT
    refine ⟨?_, ?_⟩
    · rw [hrun T, if_pos hT]
    · rw [hsetT, hsetO]
  · intro T1 T2 V1 V2 h1 h2 hne hbase
    rw [hrun T1] at h1
    rw [hrun T2] at h2
    have e1 := Except.ok.inj h1
    have e2 := Except.ok.inj h2
    by_cases hd1 : T1.name = D.name
    · by_cases hd2 : T2.name = D.name
      · exact absurd (hd1.trans hd2.symm) hne
      · rw [← e1, ← e2, if_neg (not_not_intro hd1), if_pos hd2, hsetT, hsetT, hsetO, hbase]
        exact hpfxNe T2
    · by_cases hd2 : T2.name = D.name
      · rw [← e1, ← e2, if_pos hd1, if_neg (not_not_intro hd2), hsetT, hsetT, hsetO, hbase]
        intro h
        exact hpfxNe T1 h.symm
      · rw [← e1, ← e2, if_pos hd1, if_pos hd2, hsetT, hsetT, hsetO, hsetO]
        intro h
        have h' := Option.some.inj h
        cases baseOut with
        | src r =>
          simp only [PathT.withPfx] at h'
          exact hne (strAppendRightCancel (strAppendRightCancel (PathT.out.inj h')))
        | out r =>
          simp only [PathT.withPfx] at h'
          exact hne (strAppendRightCancel (strAppendRightCancel (PathT.out.inj h')))
        | tool r =>
          simp only [PathT.withPfx] at h'
          exact hne (strAppendRightCancel (strAppendRightCancel (PathT.out.inj h')))

/-- Witness for C3 (amended): concrete default and `arm` variants of a
wrapped `foo.a` library. -/
theorem c3_mtl_variants_witness :
    (mtlCcLibrary Rex (PathT.out "foo.a") exLibPlain none
        = .ok (exLibPlain.setToolchain (some tcGcc))
      ∧ (exLibPlain.setToolchain (some tcGcc)).outp = exLibPlain.outp)
    ∧ (∀ T, T.name = tcGcc.name →
        mtlCcLibrary Rex (PathT.out "foo.a") exLibPlain (some T)
          = .ok (exLibPlain.setToolchain (some T))
        ∧ (exLibPlain.setToolchain (some T)).outp = exLibPlain.outp)
    ∧ (∀ T, T.name ≠ tcGcc.name →
        mtlCcLibrary Rex (PathT.out "foo.a") exLibPlain (some T)
          = .ok ((exLibPlain.setOut (some ((PathT.out "foo.a").withPfx (T.name ++ "/")))).setToolchain (some T))
        ∧ ((exLibPlain.setOut (some ((PathT.out "foo.a").withPfx (T.name ++ "/")))).setToolchain (some T)).outp
            = some ((PathT.out "foo.a").withPfx (T.name ++ "/")))
    ∧ (∀ T1 T2 V1 V2, mtlCcLibrary Rex (PathT.out "foo.a") exLibPlain (some T1) = .ok V1 →
        mtlCcLibrary Rex (PathT.out "foo.a") exLibPlain (some T2) = .ok V2 →
        T1.name ≠ T2.name → exLibPlain.outp = some (PathT.out "foo.a") → V1.outp ≠ V2.outp) :=
  c3_mtl_variants Rex tcGcc (PathT.out "foo.a") exLibPlain rfl

/-- `ObjectFile.Build` never touches the built-set (it only registers a
step). -/
theorem objectFileBuild_built {R : Registry} {o : ObjectFile} {ctx : Ctx} {v : Unit}
    {ctx' : Ctx} (h : ObjectFile.build R o ctx = .ok v ctx') : ctx'.built = ctx.built := by
  unfold ObjectFile.build at h
  split at h
  · simp at h
  · rw [show ∀ st, (BRes.ok () (ctx.addStep st) : BRes Unit) = .ok v ctx' ↔
      () = v ∧ ctx.addStep st = ctx' from fun st => by
        constructor
        · intro hh; cases hh; exact ⟨rfl, rfl⟩
        · intro ⟨h1, h2⟩; rw [← h2]] at h
    rw [← h.2]
    rfl

/-- `BlobObject.Build` never touches the built-set. -/
theorem blobBuild_built {R : Registry} {b : BlobObject} {ctx : Ctx} {v : Unit}
    {ctx' : Ctx} (h : BlobObject.build R b ctx = .ok v ctx') : ctx'.built = ctx.built := by
  unfold BlobObject.build at h
  split at h
  · simp at h
  · split at h
    · simp at h
    · cases h
      rfl

/-- The compile loop never touches the built-set. -/
theorem compileSrcList_built {R : Registry} {includes : List PathT} {flags : List String}
    {tc : Toolchain} : ∀ {srcs : List PathT} {ctx : Ctx} {v : List PathT} {ctx' : Ctx},
    compileSrcList R includes flags tc srcs ctx = .ok v ctx' → ctx'.built = ctx.built := by
  intro srcs
  induction srcs with
  | nil => intro ctx v ctx' h; cases h; rfl
  | cons s ss ih =>
    intro ctx v ctx' h
    unfold compileSrcList at h
    split at h
    · simp at h
    · rename_i heq1
      split at h
      · simp at h
      · rename_i heq2
        cases h
        rw [ih heq2, objectFileBuild_built heq1]

/-- `compileSources` never touches the built-set. -/
theorem compileSources_built {R : Registry} {srcs : List PathT} {flags : List String}
    {deps : List Library} {tc : Toolchain} {ctx : Ctx} {v : List PathT} {ctx' : Ctx}
    (h : compileSources R srcs flags deps tc ctx = .ok v ctx') : ctx'.built = ctx.built :=
  compileSrcList_built h

/-- The blob loop never touches the built-set. -/
theorem buildBlobs_built {R : Registry} {tc : Toolchain} :
    ∀ {blobs : List PathT} {ctx : Ctx} {v : List PathT} {ctx' : Ctx},
    buildBlobs R tc blobs ctx = .ok v ctx' → ctx'.built = ctx.built := by
  intro blobs
  induction blobs with
  | nil => intro ctx v ctx' h; cases h; rfl
  | cons b bs ih =>
    intro ctx v ctx' h
    unfold buildBlobs at h
    split at h
    · simp at h
    · rename_i heq1
      split at h
      · simp at h
      · rename_i heq2
        cases h
        rw [ih heq2, blobBuild_built heq1]

/-- If the per-member builder only grows the built-set, so does the
dependency-build loop. -/
theorem buildLibsWith_mono (bld : Library → Ctx → BRes Unit)
    (hb : ∀ l c v c', bld l c = .ok v c' → ∀ s, s ∈ c.built → s ∈ c'.built) :
    ∀ (ls : List Library) (ctx : Ctx) (v : Unit) (ctx' : Ctx),
      buildLibsWith bld ls ctx = .ok v ctx' → ∀ s, s ∈ ctx.built → s ∈ ctx'.built := by
  intro ls
  induction ls with
  | nil => intro ctx v ctx' h s hs; cases h; exact hs
  | cons l ls ih =>
    intro ctx v ctx' h s hs
    unfold buildLibsWith at h
    split at h
    · simp at h
    · rename_i heq
      exact ih _ _ _ h s (hb _ _ _ _ heq s hs)

/-- `Library.Build` only grows the built-set when its body does. -/
theorem libBuildCore_mono (body : Library → Ctx → BRes Unit)
    (hb : ∀ l c v c', body l c = .ok v c' → ∀ s, s ∈ c.built → s ∈ c'.built)
    (l : Library) (c : Ctx) (v : Unit) (c' : Ctx) (h : libBuildCore body l c = .ok v c') :
    ∀ s, s ∈ c.built → s ∈ c'.built := by
  unfold libBuildCore at h
  split at h
  · simp at h
  · exact hb _ _ _ _ h

/-- `Library.build` only grows the built-set when the closure builder
does. -/
theorem libBuildBodyCore_mono (R : Registry) (buildDeps : List Library → Ctx → BRes Unit)
    (hb : ∀ ds c v c', buildDeps ds c = .ok v c' → ∀ s, s ∈ c.built → s ∈ c'.built)
    (lib : Library) (ctx : Ctx) (v : Unit) (ctx' : Ctx)
    (h : libBuildBodyCore R buildDeps lib ctx = .ok v ctx') :
    ∀ s, s ∈ ctx.built → s ∈ ctx'.built := by
  intro s hs
  unfold libBuildBodyCore at h
  split at h
  · simp at h
  · split at h
    · rename_i heq
      cases h
      unfold Ctx.builtQ at heq
      split at heq
      · cases heq; exact hs
      · simp at heq
    · rename_i ctx1 heq
      have hs1 : s ∈ ctx1.built := by
        unfold Ctx.builtQ at heq
        split at heq
        · simp at heq
        · cases heq
          exact List.mem_cons_of_mem _ hs
      split at h
      · simp at h
      · split at h
        · simp at h
        · rename_i deps hdeps
          split at h
          · simp at h
          · rename_i hlibs
            split at h
            · simp at h
            · rename_i hcs
              split at h
              · simp at h
              · rename_i hbb
                cases h
                have h2 := hb _ _ _ _ hlibs s hs1
                have h3 := compileSources_built hcs
                have h4 := buildBlobs_built hbb
                show s ∈ _
                rw [show ∀ (c : Ctx) st, (c.addStep st).built = c.built
                  from fun c st => rfl, h4, h3]
                exact h2

/-- The built-set only ever grows across `Library.build` at any recursion
depth. -/
theorem builtMono (R : Registry) : ∀ (fuel : Nat) (lib : Library) (ctx : Ctx) (v : Unit)
    (ctx' : Ctx), libBuildBody R fuel lib ctx = .ok v ctx' →
    ∀ s, s ∈ ctx.built → s ∈ ctx'.built := by
  intro fuel
  induction fuel with
  | zero =>
    intro lib ctx v ctx' h
    exact libBuildBodyCore_mono R _ (fun ds c v c' hh => by simp at hh) lib ctx v ctx' h
  | succ n ih =>
    intro lib ctx v ctx' h
    exact libBuildBodyCore_mono R _
      (buildLibsWith_mono _ (fun l c v c' hh => libBuildCore_mono _ ih l c v c' hh))
      lib ctx v ctx' h

/-- If the engine already reports the library's output path as built,
`Library.build` returns the context unchanged (body form, any closure
builder). -/
theorem libBuildBodyCore_already_built (R : Registry)
    (buildDeps : List Library → Ctx → BRes Unit) (lib : Library) (op : PathT)
    (ctx : Ctx) (hout : lib.outp = some op)
    (hb : ctx.built.contains op.absolute = true) :
    libBuildBodyCore R buildDeps lib ctx = .ok () ctx := by
  unfold libBuildBodyCore
  rw [hout]
  dsimp only
  split
  · rename_i ctx1 heq
    unfold Ctx.builtQ at heq
    rw [hb] at heq
    simp only [if_pos rfl] at heq
    cases heq
    rfl
  · rename_i ctx1 heq
    unfold Ctx.builtQ at heq
    rw [hb] at heq
    simp only [if_pos rfl] at heq
    cases heq

/-- If the engine already reports the library's output path as built,
`Library.build` returns the context unchanged. -/
theorem libBuildBody_already_built (R : Registry) (fuel : Nat) (lib : Library) (op : PathT)
    (ctx : Ctx) (hout : lib.outp = some op)
    (hb : ctx.built.contains op.absolute = true) :
    libBuildBody R fuel lib ctx = .ok () ctx := by
  cases fuel with
  | zero => exact libBuildBodyCore_already_built R _ lib op ctx hout hb
  | succ n => exact libBuildBodyCore_already_built R _ lib op ctx hout hb

/-- A successful `Library.build` leaves the library's output path in the
engine's built-set (the `ctx.Built` query registers it on entry; the rest
of the build only grows the set). -/
theorem libBuildBodyCore_registers (R : Registry)
    (buildDeps : List Library → Ctx → BRes Unit)
    (hmono : ∀ ds c v c', buildDeps ds c = .ok v c' → ∀ s, s ∈ c.built → s ∈ c'.built)
    (lib : Library) (op : PathT) (ctx : Ctx) (v : Unit) (ctx' : Ctx)
    (hout : lib.outp = some op)
    (h : libBuildBodyCore R buildDeps lib ctx = .ok v ctx') : op.absolute ∈ ctx'.built := by
  unfold libBuildBodyCore at h
  rw [hout] at h
  dsimp only at h
  split at h
  · rename_i ctx1 heq
    cases h
    unfold Ctx.builtQ at heq
    split at heq
    · rename_i hc
      cases heq
      simpa using hc
    · simp at heq
  · rename_i ctx1 heq
    have hmem1 : op.absolute ∈ ctx1.built := by
      unfold Ctx.builtQ at heq
      split at heq
      · simp at heq
      · cases heq
        exact List.mem_cons_self _ _
    split at h
    · simp at h
    · split at h
      · simp at h
      · rename_i deps hdeps
        split at h
        · simp at h
        · rename_i hlibs
          split at h
          · simp at h
          · rename_i hcs
            split at h
            · simp at h
            · rename_i hbb
              cases h
              have h2 := hmono _ _ _ _ hlibs op.absolute hmem1
              have h3 := compileSources_built hcs
              have h4 := buildBlobs_built hbb
              show op.absolute ∈ _
              rw [show ∀ (c : Ctx) st, (c.addStep st).built = c.built
                from fun c st => rfl, h4, h3]
              exact h2

/-- A successful `Library.build` leaves the library's output path in the
engine's built-set. -/
theorem libBuildBody_registers (R : Registry) (fuel : Nat) (lib : Library) (op : PathT)
    (ctx : Ctx) (v : Unit) (ctx' : Ctx) (hout : lib.outp = some op)
    (h : libBuildBody R fuel lib ctx = .ok v ctx') : op.absolute ∈ ctx'.built := by
  cases fuel with
  | zero =>
    exact libBuildBodyCore_registers R _ (fun ds c v c' hh => by simp at hh)
      lib op ctx v ctx' hout h
  | succ n =>
    exact libBuildBodyCore_registers R _
      (buildLibsWith_mono _ (fun l c v c' hh => libBuildCore_mono _ (builtMono R n) l c v c' hh))
      lib op ctx v ctx' hout h

/-- C4.  If the engine context already reports the library's output path as
built, `Library.build` returns immediately with the context unchanged — no
build step is emitted; consequently, once a build has succeeded, invoking
the build again (with any recursion budget) is a no-op, so a library's
steps are emitted at most once per process. -/
theorem c4_build_once (R : Registry) (fuel fuel2 : Nat) (lib : Library) (op : PathT)
    (ctx : Ctx) (hout : lib.outp = some op) :
    (ctx.built.contains op.absolute = true → libBuildBody R fuel lib ctx = .ok () ctx)
    ∧ (∀ ctx', libBuildBody R fuel lib ctx = .ok () ctx' →
        libBuildBody R fuel2 lib ctx' = .ok () ctx') := by
  constructor
  · intro hb
    exact libBuildBody_already_built R fuel lib op ctx hout hb
  · intro ctx' h
    have hmem := libBuildBody_registers R fuel lib op ctx () ctx' hout h
    exact libBuildBody_already_built R fuel2 lib op ctx' hout (by simpa using hmem)

/-- Witness for C4: a context that already reports `a.a` as built, and a
fresh build of the same library from the empty context. -/
theorem c4_build_once_witness :
    (Ctx.built { built := [(PathT.out "a.a").absolute], steps := [] }
        |>.contains (PathT.out "a.a").absolute) = true
    ∧ ((Ctx.built { built := [(PathT.out "a.a").absolute], steps := [] }
          |>.contains (PathT.out "a.a").absolute) = true →
        libBuildBody Rex 3 exLibArm { built := [(PathT.out "a.a").absolute], steps := [] }
          = .ok () { built := [(PathT.out "a.a").absolute], steps := [] })
    ∧ (∀ ctx', libBuildBody Rex 3 exLibArm { built := [(PathT.out "a.a").absolute], steps := [] }
          = .ok () ctx' → libBuildBody Rex 5 exLibArm ctx' = .ok () ctx') :=
  ⟨by decide,
    (c4_build_once Rex 3 5 exLibArm (PathT.out "a.a")
      { built := [(PathT.out "a.a").absolute], steps := [] } rfl).1,
    (c4_build_once Rex 3 5 exLibArm (PathT.out "a.a")
      { built := [(PathT.out "a.a").absolute], steps := [] } rfl).2⟩

/-- The single-pass partition loop of `Binary.build` equals the
order-preserving filters of the closure: the always-link group is exactly
the members with the flag, the other group exactly those without, both in
closure order. -/
theorem binPartition_eq : ∀ ds : List Library,
    binPartition ds = (ds.map libOut, (ds.filter Library.alwaysLink).map libOut,
      (ds.filter (fun d => !d.alwaysLink)).map libOut) := by
  intro ds
  induction ds with
  | nil => rfl
  | cons d ds ih =>
    unfold binPartition
    rw [ih]
    by_cases hal : d.alwaysLink
    · simp [hal, List.filter_cons]
    · simp only [Bool.not_eq_true] at hal
      simp [hal, List.filter_cons]

/-- The trailing flag list of the generated binary-link command: the
toolchain's linker flags, the binary's flags, then `-T` with the explicit
script if supplied, else with the toolchain's linker script if any. -/
def gccLinkFlagList (g : GccParams) (lscript : Option PathT) (flags : List String)
    (script : Option PathT) : List String :=
  match script with
  | some sc => (g.linkerFlags ++ flags) ++ ["-T", qp sc]
  | none =>
    match lscript with
    | some sc => (g.linkerFlags ++ flags) ++ ["-T", qp sc]
    | none => g.linkerFlags ++ flags

/-- The generated binary-link command decomposes around the whole-archive
markers: the always-link group sits between `-Wl,-whole-archive` and
`-Wl,-no-whole-archive`, the other group follows the end marker, and the
flags (with the explicit script taking precedence over the toolchain's)
come last. -/
theorem gccBinaryCmd_decomp (g : GccParams) (lscript : Option PathT) (outP : PathT)
    (objs alw oth : List PathT) (flags : List String) (script : Option PathT) :
    gccBinaryCmd g lscript outP objs alw oth flags script
      = (qp g.cxx ++ " -pipe -o " ++ qp outP ++ " " ++ joinQuoted objs)
        ++ ("-Wl,-whole-archive " ++ joinQuoted alw)
        ++ ("-Wl,-no-whole-archive " ++ joinQuoted oth)
        ++ (" " ++ String.intercalate " " (gccLinkFlagList g lscript flags script)) := by
  unfold gccBinaryCmd gccLinkFlagList
  cases script with
  | some sc => simp [String.append_assoc]
  | none =>
    cases lscript with
    | some sc => simp [String.append_assoc]
    | none => simp [String.append_assoc]

/-- C6.  The link step emitted by `Binary.build` (the last step it
registers) carries a command in which the always-link closure members sit
between the `-Wl,-whole-archive` / `-Wl,-no-whole-archive` markers and all
other closure members follow the end marker, each group an order-preserving
filter of the collected closure. -/
theorem c6_link_ordering (R : Registry) (fuel : Nat) (g : GccParams) (gdeps : List Dep)
    (lscript : Option PathT) (bin : Binary) (ctx ctx' : Ctx) (deps : List Library)
    (op : PathT)
    (htc : toolchainOrDefault R bin.toolchain = .ok (GccToolchain.make g gdeps lscript))
    (hdeps : collectDepsWithToolchain R (GccToolchain.make g gdeps lscript)
      (bin.deps ++ (GccToolchain.make g gdeps lscript).stdDeps) = .ok deps)
    (hout : bin.outP = some op)
    (h : binBuildBody R fuel bin ctx = .ok () ctx') :
    ∃ (objs : List PathT) (st : BuildStep),
      ctx'.steps.getLast? = some st
      ∧ st.cmd = gccBinaryCmd g lscript op objs
          ((deps.filter Library.alwaysLink).map libOut)
          ((deps.filter (fun d => !d.alwaysLink)).map libOut)
          bin.linkerFlags bin.script
      ∧ gccBinaryCmd g lscript op objs
          ((deps.filter Library.alwaysLink).map libOut)
          ((deps.filter (fun d => !d.alwaysLink)).map libOut)
          bin.linkerFlags bin.script
          = (qp g.cxx ++ " -pipe -o " ++ qp op ++ " " ++ joinQuoted objs)
            ++ ("-Wl,-whole-archive "
                ++ joinQuoted ((deps.filter Library.alwaysLink).map libOut))
            ++ ("-Wl,-no-whole-archive "
                ++ joinQuoted ((deps.filter (fun d => !d.alwaysLink)).map libOut))
            ++ (" " ++ String.intercalate " "
                (gccLinkFlagList g lscript bin.linkerFlags bin.script)) := by
  unfold binBuildBody at h
  rw [htc] at h
  dsimp only at h
  rw [hdeps] at h
  dsimp only at h
  cases fuel with
  | zero => simp at h
  | succ n =>
    dsimp only at h
    split at h
    · simp at h
    · rename_i hlibs
      split at h
      · simp at h
      · rename_i objs ctx2 hcs
        rw [binPartition_eq] at h
        dsimp only at h
        rw [hout] at h
        dsimp only at h
        split at h
        · cases h
          refine ⟨objs, ?st1, ?c11, ?c12, ?c13⟩
          case c11 => exact List.getLast?_concat _
          case c12 => rfl
          case c13 => exact gccBinaryCmd_decomp g lscript op objs _ _ _ _
        · split at h
          · cases h
            refine ⟨objs, ?st2, ?c21, ?c22, ?c23⟩
            case c21 => exact List.getLast?_concat _
            case c22 => rfl
            case c23 => exact gccBinaryCmd_decomp g lscript op objs _ _ _ _
          · cases h
            refine ⟨objs, ?st3, ?c31, ?c32, ?c33⟩
            case c31 => exact List.getLast?_concat _
            case c32 => rfl
            case c33 => exact gccBinaryCmd_decomp g lscript op objs _ _ _ _

/-- A concrete gcc parameter set (mirroring the registered `NativeGcc`
values, with empty flag lists for brevity). -/
def gccP : GccParams :=
  { ar := .tool "ar", asm := .tool "as", cc := .tool "gcc", cpp := .tool "gcc -E",
    cxx := .tool "g++", objcopy := .tool "objcopy", ld := .tool "ld",
    includes := [], compilerFlags := [], linkerFlags := [],
    toolchainName := "native-gcc", archName := "x86_64", targetName := "",
    compatibleWith := [] }

/-- The toolchain built from `gccP`, with no standard deps and no script. -/
def tcNative : Toolchain := GccToolchain.make gccP [] none

/-- A registry whose default is the native gcc toolchain. -/
def RexNative : Registry := { toolchains := [("native-gcc", tcNative)], defaultName := "native-gcc" }

/-- An always-link library pinned to the native toolchain. -/
def depAlways : Library := .mk (some (.out "al.a")) [] [] [] [] [] [] false true (some tcNative)

/-- An ordinary library pinned to the native toolchain. -/
def depOther : Library := .mk (some (.out "ord.a")) [] [] [] [] [] [] false false (some tcNative)

/-- A binary linking one always-link and one ordinary library. -/
def exBinLink : Binary :=
  { outP := some (.out "prog"), srcs := [], compilerFlags := [], linkerFlags := ["-lfoo"],
    deps := [.lib depAlways, .lib depOther], script := none, toolchain := some tcNative }

/-- The context produced by building `exBinLink` from the empty context. -/
def ctxC6 : Ctx :=
  match binBuildBody RexNative 2 exBinLink ctx0 with
  | .ok _ c => c
  | .fatal _ c => c

/-- Witness for C6: the concrete link of `exBinLink`. -/
theorem c6_link_ordering_witness :
    ∃ (objs : List PathT) (st : BuildStep),
      ctxC6.steps.getLast? = some st
      ∧ st.cmd = gccBinaryCmd gccP none (PathT.out "prog") objs
          (([depAlways, depOther].filter Library.alwaysLink).map libOut)
          (([depAlways, depOther].filter (fun d => !d.alwaysLink)).map libOut)
          exBinLink.linkerFlags exBinLink.script
      ∧ gccBinaryCmd gccP none (PathT.out "prog") objs
          (([depAlways, depOther].filter Library.alwaysLink).map libOut)
          (([depAlways, depOther].filter (fun d => !d.alwaysLink)).map libOut)
          exBinLink.linkerFlags exBinLink.script
          = (qp gccP.cxx ++ " -pipe -o " ++ qp (PathT.out "prog") ++ " " ++ joinQuoted objs)
            ++ ("-Wl,-whole-archive "
                ++ joinQuoted (([depAlways, depOther].filter Library.alwaysLink).map libOut))
            ++ ("-Wl,-no-whole-archive "
                ++ joinQuoted (([depAlways, depOther].filter (fun d => !d.alwaysLink)).map libOut))
            ++ (" " ++ String.intercalate " "
                (gccLinkFlagList gccP none exBinLink.linkerFlags exBinLink.script)) :=
  c6_link_ordering RexNative 2 gccP [] none exBinLink ctx0 ctxC6
    [depAlways, depOther] (PathT.out "prog") rfl rfl rfl rfl

/-- The graph collector only grows the visited set. -/
theorem collectGraph_visited_mono (g : DepGraph) : ∀ (fuel : Nat) (ds : List (Fin g.n))
    (vis : List String) (res : List String) (v' : List String),
    collectGraph g fuel ds vis = some (res, v') → ∀ s, s ∈ vis → s ∈ v' := by
  intro fuel
  induction fuel with
  | zero =>
    intro ds
    induction ds with
    | nil => intro vis res v' h s hs; unfold collectGraph at h; cases h; exact hs
    | cons d rest ih =>
      intro vis res v' h s hs
      unfold collectGraph at h
      dsimp only at h
      split at h
      · exact ih _ _ _ h s hs
      · simp at h
  | succ f ihf =>
    intro ds
    induction ds with
    | nil => intro vis res v' h s hs; unfold collectGraph at h; cases h; exact hs
    | cons d rest ih =>
      intro vis res v' h s hs
      unfold collectGraph at h
      dsimp only at h
      split at h
      · exact ih _ _ _ h s hs
      · split at h
        · simp at h
        · rename_i sub v1 hsub
          split at h
          · simp at h
          · rename_i tail v2 htail
            cases h
            exact ih _ _ _ htail s
              (ihf _ _ _ _ hsub s (List.mem_cons_of_mem _ hs))

/-- Fuel sufficiency: if the recursion-depth budget is at least the number
of distinct resolved output paths not yet visited, the graph collector
completes.  Each one-level descent marks a fresh path as visited before
traversing its references, so the unvisited-path count strictly drops. -/
theorem collectGraph_suff (g : DepGraph) : ∀ (fuel : Nat) (ds : List (Fin g.n))
    (vis : List String),
    ((Finset.univ.image g.outOf).filter (fun p => p ∉ vis)).card ≤ fuel →
    (collectGraph g fuel ds vis).isSome := by
  intro fuel
  induction fuel with
  | zero =>
    intro ds
    induction ds with
    | nil => intro vis hcard; unfold collectGraph; simp
    | cons d rest ih =>
      intro vis hcard
      unfold collectGraph
      dsimp only
      split
      · exact ih vis hcard
      · rename_i hnv
        exfalso
        have hmem : g.outOf d ∈ (Finset.univ.image g.outOf).filter (fun p => p ∉ vis) := by
          simp only [Finset.mem_filter, Finset.mem_image]
          exact ⟨⟨d, Finset.mem_univ d, rfl⟩, hnv⟩
        have := Finset.card_pos.mpr ⟨_, hmem⟩
        omega
  | succ f ihf =>
    intro ds
    induction ds with
    | nil => intro vis hcard; unfold collectGraph; simp
    | cons d rest ih =>
      intro vis hcard
      unfold collectGraph
      dsimp only
      split
      · exact ih vis hcard
      · rename_i hnv
        have hmem : g.outOf d ∈ (Finset.univ.image g.outOf).filter (fun p => p ∉ vis) := by
          simp only [Finset.mem_filter, Finset.mem_image]
          exact ⟨⟨d, Finset.mem_univ d, rfl⟩, hnv⟩
        have hsubcard :
            ((Finset.univ.image g.outOf).filter (fun p => p ∉ g.outOf d :: vis)).card ≤ f := by
          have herase : (Finset.univ.image g.outOf).filter (fun p => p ∉ g.outOf d :: vis)
              = ((Finset.univ.image g.outOf).filter (fun p => p ∉ vis)).erase (g.outOf d) := by
            ext p
            simp only [Finset.mem_filter, Finset.mem_erase, List.mem_cons]
            constructor
            · intro ⟨hp, hnp⟩
              push_neg at hnp
              exact ⟨hnp.1, hp, hnp.2⟩
            · intro ⟨hne, hp, hnp⟩
              exact ⟨hp, by push_neg; exact ⟨hne, hnp⟩⟩
          rw [herase, Finset.card_erase_of_mem hmem]
          omega
        have hsub := ihf (g.depsOf d) (g.outOf d :: vis) hsubcard
        cases hcase : collectGraph g f (g.depsOf d) (g.outOf d :: vis) with
        | none => rw [hcase] at hsub; simp at hsub
        | some p =>
          cases p with
          | mk sub v1 =>
            have hv1 : ∀ s, s ∈ vis → s ∈ v1 := fun s hs =>
              collectGraph_visited_mono g f (g.depsOf d) (g.outOf d :: vis) sub v1 hcase s
                (List.mem_cons_of_mem _ hs)
            have htailcard :
                ((Finset.univ.image g.outOf).filter (fun p => p ∉ v1)).card ≤ f + 1 := by
              have hsubset : (Finset.univ.image g.outOf).filter (fun p => p ∉ v1)
                  ⊆ (Finset.univ.image g.outOf).filter (fun p => p ∉ vis) := by
                intro p hp
                simp only [Finset.mem_filter] at hp ⊢
                exact ⟨hp.1, fun hmemv => hp.2 (hv1 p hmemv)⟩
              exact le_trans (Finset.card_le_card hsubset) hcard
            have htail := ih v1 htailcard
            dsimp only
            cases hcase2 : collectGraph g (f + 1) rest v1 with
            | none => rw [hcase2] at htail; simp at htail
            | some q => simp

/-- C10.  The dependency collector terminates on every finite resolved
dependency-reference graph, cyclic reference graphs included: with the
recursion-depth budget set to the number of distinct resolved output
paths, the traversal always completes, because each resolved path is added
to the visited set before that node's own references are traversed. -/
theorem c10_collector_terminates (g : DepGraph) (ds : List (Fin g.n)) :
    (collectGraph g (Finset.univ.image g.outOf).card ds []).isSome := by
  apply collectGraph_suff
  simp

/-- Bridge between `List.contains` and membership for strings. -/
theorem contains_mem_iff (l : List String) (s : String) : l.contains s = true ↔ s ∈ l := by
  simp

mutual

/-- The unpruned depth-first traversal underlying the collector: resolve
each reference under the toolchain, key it, and recurse into the resolved
library's references, keeping every visit.  The collector's output is the
keep-first deduplication of this preorder (`c1_collector_dedup`). -/
def preOne (R : Registry) (tc : Toolchain) (d : Dep) :
    Except String (List (Library × String)) :=
  match Dep.ccLibrary R (some tc) d with
  | .error e => .error e
  | .ok lib =>
    match lib.outKey with
    | .error e => .error e
    | .ok key =>
      match d with
      | .lib (.mk _ _ _ _ _ _ ldeps _ _ _) =>
        match preL R tc ldeps with
        | .error e => .error e
        | .ok sub => .ok ((lib, key) :: sub)
      | .mtl _ (.mk _ _ _ _ _ _ ldeps _ _ _) =>
        match preL R tc ldeps with
        | .error e => .error e
        | .ok sub => .ok ((lib, key) :: sub)

/-- The unpruned depth-first traversal of a reference list. -/
def preL (R : Registry) (tc : Toolchain) : List Dep → Except String (List (Library × String))
  | [] => .ok []
  | d :: rest =>
    match preOne R tc d with
    | .error e => .error e
    | .ok P1 =>
      match preL R tc rest with
      | .error e => .error e
      | .ok P2 => .ok (P1 ++ P2)

end

theorem preL_nil (R : Registry) (tc : Toolchain) : preL R tc [] = .ok [] := rfl

theorem preL_cons (R : Registry) (tc : Toolchain) (d : Dep) (rest : List Dep) :
    preL R tc (d :: rest) =
      match preOne R tc d with
      | .error e => .error e
      | .ok P1 =>
        match preL R tc rest with
        | .error e => .error e
        | .ok P2 => .ok (P1 ++ P2) := rfl

theorem preOne_eq (R : Registry) (tc : Toolchain) (d : Dep) :
    preOne R tc d =
      match Dep.ccLibrary R (some tc) d with
      | .error e => .error e
      | .ok lib =>
        match lib.outKey with
        | .error e => .error e
        | .ok key =>
          match preL R tc d.underlying.deps with
          | .error e => .error e
          | .ok sub => .ok ((lib, key) :: sub) := by
  cases d with
  | lib l => cases l; rfl
  | mtl b l => cases l; rfl

/-- Inversion of a successful `preOne`: the resolved library, its key, the
subtree traversal, and the fact that resolution keeps the `Deps` field. -/
theorem preOne_inv (R : Registry) (tc : Toolchain) (d : Dep)
    (P1 : List (Library × String)) (h : preOne R tc d = .ok P1) :
    ∃ lib key P',
      Dep.ccLibrary R (some tc) d = .ok lib
      ∧ lib.outKey = .ok key
      ∧ preL R tc lib.deps = .ok P'
      ∧ P1 = (lib, key) :: P' := by
  rw [preOne_eq] at h
  cases hcc : Dep.ccLibrary R (some tc) d with
  | error e => rw [hcc] at h; simp at h
  | ok lib =>
    rw [hcc] at h
    dsimp only at h
    cases hk : lib.outKey with
    | error e => rw [hk] at h; simp at h
    | ok key =>
      rw [hk] at h
      dsimp only at h
      cases hp : preL R tc d.underlying.deps with
      | error e => rw [hp] at h; simp at h
      | ok sub =>
        rw [hp] at h
        dsimp only at h
        cases h
        exact ⟨lib, key, sub, rfl, hk, by rw [ccLibrary_deps R (some tc) d lib hcc]; exact hp, rfl⟩

/-- Inversion of a successful `preL` on a cons cell. -/
theorem preL_cons_inv (R : Registry) (tc : Toolchain) (d : Dep) (rest : List Dep)
    (P : List (Library × String)) (h : preL R tc (d :: rest) = .ok P) :
    ∃ P1 P2, preOne R tc d = .ok P1 ∧ preL R tc rest = .ok P2 ∧ P = P1 ++ P2 := by
  rw [preL_cons] at h
  cases h1 : preOne R tc d with
  | error e => rw [h1] at h; simp at h
  | ok P1 =>
    rw [h1] at h
    dsimp only at h
    cases h2 : preL R tc rest with
    | error e => rw [h2] at h; simp at h
    | ok P2 =>
      rw [h2] at h
      dsimp only at h
      cases h
      exact ⟨P1, P2, rfl, rfl, rfl⟩

/-- Every member of the preorder of a forest has a strictly smaller
dependency list than the forest: its `Deps` field was pattern-matched out
of a node of the forest. -/
theorem pre_sizeOf_bound (R : Registry) (tc : Toolchain) :
    ∀ (N : Nat) (ds : List Dep), sizeOf ds ≤ N →
    ∀ (P : List (Library × String)), preL R tc ds = .ok P →
    ∀ l0 k0, (l0, k0) ∈ P → sizeOf l0.deps < sizeOf ds := by
  intro N
  induction N with
  | zero => intro ds h; exfalso; cases ds <;> simp at h
  | succ n ih =>
    intro ds hsz P hpre l0 k0 hmem
    match ds with
    | [] => rw [preL_nil] at hpre; cases hpre; simp at hmem
    | d :: rest =>
      obtain ⟨P1, P2, h1, h2, hP⟩ := preL_cons_inv R tc d rest P hpre
      obtain ⟨lib, key, P', hcc, hk, hsub, hP1⟩ := preOne_inv R tc d P1 h1
      have hld : sizeOf lib.deps < sizeOf (d :: rest) := by
        rw [ccLibrary_deps R (some tc) d lib hcc]
        cases d with
        | lib l => cases l <;> simp [Dep.underlying, Library.deps] <;> omega
        | mtl b l => cases l <;> simp [Dep.underlying, Library.deps] <;> omega
      have hrest : sizeOf rest ≤ n := by cases d <;> simp at hsz <;> omega
      have hldn : sizeOf lib.deps ≤ n := by omega
      subst hP hP1
      rcases List.mem_append.mp hmem with hm1 | hm2
      · rcases List.mem_cons.mp hm1 with he | hm1'
        · cases he; exact hld
        · have := ih lib.deps hldn P' hsub l0 k0 hm1'
          omega
      · have hlt := ih rest hrest P2 h2 l0 k0 hm2
        have hr2 : sizeOf rest < sizeOf (d :: rest) := by
          cases d <;> simp
        omega

/-- The keys (resolved absolute output paths) of a traversal. -/
def keysOf (P : List (Library × String)) : List String := P.map Prod.snd

/-- Keep-first deduplication by key, seeded with an already-seen set: the
first occurrence of each key is kept in traversal order, later occurrences
are dropped. -/
def dedupFirstFrom (vis : List String) : List (Library × String) → List (Library × String)
  | [] => []
  | (l, k) :: rest =>
    if k ∈ vis then dedupFirstFrom vis rest
    else (l, k) :: dedupFirstFrom (k :: vis) rest

/-- The seen-set after scanning a traversal. -/
def seenAfter (vis : List String) : List (Library × String) → List String
  | [] => vis
  | (_, k) :: rest =>
    if k ∈ vis then seenAfter vis rest else seenAfter (k :: vis) rest

/-- Deduplication depends only on the membership of the seed. -/
theorem dedupFirstFrom_congr : ∀ (P : List (Library × String)) (v1 v2 : List String),
    (∀ s, s ∈ v1 ↔ s ∈ v2) → dedupFirstFrom v1 P = dedupFirstFrom v2 P := by
  intro P
  induction P with
  | nil => intro v1 v2 h; rfl
  | cons p rest ih =>
    intro v1 v2 h
    obtain ⟨l, k⟩ := p
    show (if k ∈ v1 then dedupFirstFrom v1 rest else (l, k) :: dedupFirstFrom (k :: v1) rest)
      = (if k ∈ v2 then dedupFirstFrom v2 rest else (l, k) :: dedupFirstFrom (k :: v2) rest)
    by_cases hk : k ∈ v1
    · rw [if_pos hk, if_pos ((h k).mp hk)]
      exact ih v1 v2 h
    · rw [if_neg hk, if_neg (fun hc => hk ((h k).mpr hc))]
      rw [ih (k :: v1) (k :: v2) (by
        intro s
        simp only [List.mem_cons]
        exact or_congr Iff.rfl (h s))]

/-- Membership of the seen-set after a scan. -/
theorem seenAfter_mem : ∀ (P : List (Library × String)) (vis : List String) (s : String),
    s ∈ seenAfter vis P ↔ s ∈ vis ∨ s ∈ keysOf P := by
  intro P
  induction P with
  | nil => intro vis s; simp [seenAfter, keysOf]
  | cons p rest ih =>
    intro vis s
    obtain ⟨l, k⟩ := p
    show s ∈ (if k ∈ vis then seenAfter vis rest else seenAfter (k :: vis) rest) ↔ _
    by_cases hk : k ∈ vis
    · rw [if_pos hk, ih]
      simp only [keysOf, List.map_cons, List.mem_cons]
      constructor
      · rintro (h | h)
        · exact Or.inl h
        · exact Or.inr (Or.inr h)
      · rintro (h | h | h)
        · exact Or.inl h
        · exact Or.inl (h ▸ hk)
        · exact Or.inr h
    · rw [if_neg hk, ih]
      simp only [keysOf, List.map_cons, List.mem_cons]
      constructor
      · rintro (h | h)
        · rcases h with h | h
          · exact Or.inr (Or.inl h)
          · exact Or.inl h
        · exact Or.inr (Or.inr h)
      · rintro (h | h | h)
        · exact Or.inl (Or.inr h)
        · exact Or.inl (Or.inl h)
        · exact Or.inr h

/-- Deduplication distributes over append, with the seen-set advanced by
the first part. -/
theorem dedupFirstFrom_append : ∀ (P Q : List (Library × String)) (vis : List String),
    dedupFirstFrom vis (P ++ Q)
      = dedupFirstFrom vis P ++ dedupFirstFrom (seenAfter vis P) Q := by
  intro P
  induction P with
  | nil => intro Q vis; rfl
  | cons p rest ih =>
    intro Q vis
    obtain ⟨l, k⟩ := p
    simp only [List.cons_append]
    show (if k ∈ vis then dedupFirstFrom vis (rest ++ Q)
        else (l, k) :: dedupFirstFrom (k :: vis) (rest ++ Q))
      = (if k ∈ vis then dedupFirstFrom vis rest
        else (l, k) :: dedupFirstFrom (k :: vis) rest)
        ++ dedupFirstFrom (if k ∈ vis then seenAfter vis rest else seenAfter (k :: vis) rest) Q
    by_cases hk : k ∈ vis
    · rw [if_pos hk, if_pos hk, if_pos hk]
      exact ih Q vis
    · rw [if_neg hk, if_neg hk, if_neg hk]
      rw [ih Q (k :: vis)]
      simp

/-- A traversal whose keys are all seen contributes nothing. -/
theorem dedupFirstFrom_skip : ∀ (Q : List (Library × String)) (vis : List String),
    (∀ s, s ∈ keysOf Q → s ∈ vis) → dedupFirstFrom vis Q = [] := by
  intro Q
  induction Q with
  | nil => intro vis h; rfl
  | cons p rest ih =>
    intro vis h
    obtain ⟨l, k⟩ := p
    show (if k ∈ vis then dedupFirstFrom vis rest
        else (l, k) :: dedupFirstFrom (k :: vis) rest) = []
    rw [if_pos (h k (by simp [keysOf]))]
    exact ih vis (fun s hs => h s (by simp [keysOf] at hs ⊢; exact Or.inr hs))

/-- The keys of a deduplicated traversal are distinct and disjoint from the
seed. -/
theorem dedupFirstFrom_nodup : ∀ (P : List (Library × String)) (vis : List String),
    (keysOf (dedupFirstFrom vis P)).Nodup
    ∧ ∀ s, s ∈ keysOf (dedupFirstFrom vis P) → s ∉ vis := by
  intro P
  induction P with
  | nil => intro vis; simp [dedupFirstFrom, keysOf]
  | cons p rest ih =>
    intro vis
    obtain ⟨l, k⟩ := p
    show (keysOf (if k ∈ vis then dedupFirstFrom vis rest
        else (l, k) :: dedupFirstFrom (k :: vis) rest)).Nodup
      ∧ ∀ s, s ∈ keysOf (if k ∈ vis then dedupFirstFrom vis rest
        else (l, k) :: dedupFirstFrom (k :: vis) rest) → s ∉ vis
    by_cases hk : k ∈ vis
    · rw [if_pos hk]
      exact ih vis
    · rw [if_neg hk]
      obtain ⟨ihn, ihd⟩ := ih (k :: vis)
      constructor
      · simp only [keysOf, List.map_cons, List.nodup_cons]
        refine ⟨fun hmem => ?_, ihn⟩
        exact ihd k hmem (by simp)
      · intro s hs hsv
        simp only [keysOf, List.map_cons, List.mem_cons] at hs
        rcases hs with he | hs
        · exact hk (he ▸ hsv)
        · exact ihd s hs (by simp [hsv])

/-- Every key of a traversal is seen by the end: it is in the seed or among
the keys of the deduplicated output. -/
theorem dedupFirstFrom_complete : ∀ (P : List (Library × String)) (vis : List String)
    (p : Library × String), p ∈ P →
    p.2 ∈ vis ∨ p.2 ∈ keysOf (dedupFirstFrom vis P) := by
  intro P
  induction P with
  | nil => intro vis p h; simp at h
  | cons q rest ih =>
    intro vis p hp
    obtain ⟨l, k⟩ := q
    show p.2 ∈ vis ∨ p.2 ∈ keysOf (if k ∈ vis then dedupFirstFrom vis rest
        else (l, k) :: dedupFirstFrom (k :: vis) rest)
    by_cases hk : k ∈ vis
    · rw [if_pos hk]
      rcases List.mem_cons.mp hp with he | hp2
      · left; rw [he]; exact hk
      · exact ih vis p hp2
    · rw [if_neg hk]
      rcases List.mem_cons.mp hp with he | hp2
      · right; rw [he]; simp [keysOf]
      · rcases ih (k :: vis) p hp2 with hv | hd
        · rcases List.mem_cons.mp hv with he | hv2
          · right; rw [he]; simp [keysOf]
          · exact Or.inl hv2
        · right
          simp only [keysOf, List.map_cons, List.mem_cons]
          exact Or.inr (by simpa [keysOf] using hd)

/-- The pruned, visited-keyed collector computes the keep-first
deduplication of the unpruned depth-first traversal.  `G` is the ambient
traversal (supplying coherence: equal keys resolve to equal libraries);
every visited key is either subtree-closed or still on the recursion stack
(in which case its dependency list is no smaller than the current
forest). -/
theorem collect_dedup_main (R : Registry) (tc : Toolchain) (G : List (Library × String))
    (hcoh : ∀ p q, p ∈ G → q ∈ G → Prod.snd p = Prod.snd q → Prod.fst p = Prod.fst q) :
    ∀ (N : Nat) (ds : List Dep), sizeOf ds ≤ N →
    ∀ (vis : List String) (P : List (Library × String)),
    preL R tc ds = .ok P →
    (∀ p, p ∈ P → p ∈ G) →
    (∀ l0 k0, (l0, k0) ∈ G → k0 ∈ vis →
      (∃ P', preL R tc l0.deps = .ok P' ∧ ∀ s, s ∈ keysOf P' → s ∈ vis)
      ∨ sizeOf ds ≤ sizeOf l0.deps) →
    ∃ v', collectL R tc ds vis = .ok ((dedupFirstFrom vis P).map Prod.fst, v')
      ∧ (∀ s, s ∈ v' ↔ s ∈ vis ∨ s ∈ keysOf P)
      ∧ (∀ l0 k0, (l0, k0) ∈ G → k0 ∈ v' → k0 ∉ vis →
          ∃ P', preL R tc l0.deps = .ok P' ∧ ∀ s, s ∈ keysOf P' → s ∈ v') := by
  intro N
  induction N with
  | zero => intro ds h; exfalso; cases ds <;> simp at h
  | succ n ih =>
    intro ds hsz vis P hpre hPG hstack
    match ds with
    | [] =>
      rw [preL_nil] at hpre
      cases hpre
      refine ⟨vis, ?_, ?_, ?_⟩
      · rw [collectL_nil]; rfl
      · intro s; simp [keysOf]
      · intro l0 k0 _ hk0 hk0n; exact absurd hk0 hk0n
    | d :: rest =>
      obtain ⟨P1, P2, h1, h2, hP⟩ := preL_cons_inv R tc d rest P hpre
      obtain ⟨lib, key, P', hcc, hk, hsub, hP1⟩ := preOne_inv R tc d P1 h1
      subst hP1
      subst hP
      have hrest : sizeOf rest ≤ n := by cases d <;> simp at hsz <;> omega
      have hrlt : sizeOf rest < sizeOf (d :: rest) := by cases d <;> simp
      have hliblt : sizeOf lib.deps < sizeOf (d :: rest) := by
        rw [ccLibrary_deps R (some tc) d lib hcc]
        cases d with
        | lib l => cases l <;> simp [Dep.underlying, Library.deps] <;> omega
        | mtl b l => cases l <;> simp [Dep.underlying, Library.deps] <;> omega
      have hldeps : sizeOf lib.deps ≤ n := by omega
      have hlibG : (lib, key) ∈ G := hPG _ (by simp)
      rw [collectL_cons, collectOne_eq, hcc]
      dsimp only
      rw [hk]
      dsimp only
      by_cases hv : key ∈ vis
      · rw [if_pos ((contains_mem_iff vis key).mpr hv)]
        dsimp only
        have hclosed : ∃ P'', preL R tc lib.deps = .ok P''
            ∧ ∀ s, s ∈ keysOf P'' → s ∈ vis := by
          rcases hstack lib key hlibG hv with hcl | hbig
          · exact hcl
          · exfalso
            have := pre_sizeOf_bound R tc (n + 1) (d :: rest) hsz _ hpre lib key (by simp)
            omega
        obtain ⟨P'', hP'', hkeys⟩ := hclosed
        have hPP : P'' = P' := by
          have := hP''.symm.trans hsub
          exact Except.ok.inj this
        subst hPP
        obtain ⟨v', hcol, hmem, hpost⟩ := ih rest hrest vis P2 h2
          (fun p hp => hPG p (List.mem_append_right _ hp))
          (fun l0 k0 hG hk0 => by
            rcases hstack l0 k0 hG hk0 with hcl | hbig
            · exact Or.inl hcl
            · right; omega)
        refine ⟨v', ?_, ?_, ?_⟩
        · rw [hcol]
          dsimp only
          have hdval : dedupFirstFrom vis (((lib, key) :: P'') ++ P2)
              = dedupFirstFrom vis P2 := by
            rw [List.cons_append]
            rw [show dedupFirstFrom vis ((lib, key) :: (P'' ++ P2))
              = if key ∈ vis then dedupFirstFrom vis (P'' ++ P2)
                else (lib, key) :: dedupFirstFrom (key :: vis) (P'' ++ P2) from rfl]
            rw [if_pos hv, dedupFirstFrom_append, dedupFirstFrom_skip P'' vis hkeys,
              List.nil_append]
            exact dedupFirstFrom_congr P2 _ vis (fun s => by
              rw [seenAfter_mem]
              constructor
              · rintro (h | h)
                · exact h
                · exact hkeys s h
              · exact Or.inl)
          rw [hdval]
          simp
        · intro s
          rw [hmem s]
          simp only [keysOf, List.map_append, List.map_cons, List.mem_cons, List.mem_append]
          have hk2 : s ∈ List.map Prod.snd P'' → s ∈ vis := fun hx => hkeys s hx
          have hv2 : s = key → s ∈ vis := fun he => he ▸ hv
          tauto
        · exact hpost
      · rw [if_neg (fun hc => hv ((contains_mem_iff vis key).mp hc))]
        have hsubstack : ∀ l0 k0, (l0, k0) ∈ G → k0 ∈ key :: vis →
            (∃ P3, preL R tc l0.deps = .ok P3 ∧ ∀ s, s ∈ keysOf P3 → s ∈ key :: vis)
            ∨ sizeOf lib.deps ≤ sizeOf l0.deps := by
          intro l0 k0 hG hk0
          rcases List.mem_cons.mp hk0 with he | hk0v
          · have hl0 : l0 = lib := hcoh (l0, k0) (lib, key) hG hlibG (by simpa using he)
            right
            rw [hl0]
          · rcases hstack l0 k0 hG hk0v with ⟨P3, hp3, hk3⟩ | hbig
            · exact Or.inl ⟨P3, hp3, fun s hs => List.mem_cons_of_mem _ (hk3 s hs)⟩
            · right; omega
        obtain ⟨v1, hcol1, hmem1, hpost1⟩ := ih lib.deps hldeps (key :: vis) P' hsub
          (fun p hp => hPG p (List.mem_append_left _ (List.mem_cons_of_mem _ hp)))
          hsubstack
        rw [← ccLibrary_deps R (some tc) d lib hcc, hcol1]
        dsimp only
        have hreststack : ∀ l0 k0, (l0, k0) ∈ G → k0 ∈ v1 →
            (∃ P3, preL R tc l0.deps = .ok P3 ∧ ∀ s, s ∈ keysOf P3 → s ∈ v1)
            ∨ sizeOf rest ≤ sizeOf l0.deps := by
          intro l0 k0 hG hk0
          by_cases hk0v : k0 ∈ vis
          · rcases hstack l0 k0 hG hk0v with ⟨P3, hp3, hk3⟩ | hbig
            · exact Or.inl ⟨P3, hp3, fun s hs =>
                (hmem1 s).mpr (Or.inl (List.mem_cons_of_mem _ (hk3 s hs)))⟩
            · right; omega
          · by_cases hk0k : k0 = key
            · have hl0 : l0 = lib := hcoh (l0, k0) (lib, key) hG hlibG (by simpa using hk0k)
              exact Or.inl ⟨P', by rw [hl0]; exact hsub,
                fun s hs => (hmem1 s).mpr (Or.inr hs)⟩
            · have hnotin : k0 ∉ key :: vis := by
                intro hc
                rcases List.mem_cons.mp hc with he | hm
                · exact hk0k he
                · exact hk0v hm
              exact Or.inl (hpost1 l0 k0 hG hk0 hnotin)
        obtain ⟨v2, hcol2, hmem2, hpost2⟩ := ih rest hrest v1 P2 h2
          (fun p hp => hPG p (List.mem_append_right _ hp))
          hreststack
        rw [hcol2]
        dsimp only
        refine ⟨v2, ?_, ?_, ?_⟩
        · have hdval : dedupFirstFrom vis (((lib, key) :: P') ++ P2)
              = (lib, key) :: (dedupFirstFrom (key :: vis) P'
                  ++ dedupFirstFrom v1 P2) := by
            rw [List.cons_append]
            rw [show dedupFirstFrom vis ((lib, key) :: (P' ++ P2))
              = if key ∈ vis then dedupFirstFrom vis (P' ++ P2)
                else (lib, key) :: dedupFirstFrom (key :: vis) (P' ++ P2) from rfl]
            rw [if_neg hv, dedupFirstFrom_append]
            rw [dedupFirstFrom_congr P2 (seenAfter (key :: vis) P') v1 (fun s => by
              rw [seenAfter_mem, hmem1 s])]
          rw [hdval]
          simp
        · intro s
          rw [hmem2 s, hmem1 s]
          simp only [keysOf, List.map_append, List.map_cons, List.mem_cons, List.mem_append]
          tauto
        · intro l0 k0 hG hk0 hk0vis
          by_cases hk0v1 : k0 ∈ v1
          · by_cases hk0k : k0 = key
            · have hl0 : l0 = lib := hcoh (l0, k0) (lib, key) hG hlibG (by simpa using hk0k)
              exact ⟨P', by rw [hl0]; exact hsub, fun s hs =>
                (hmem2 s).mpr (Or.inl ((hmem1 s).mpr (Or.inr hs)))⟩
            · have hnotin : k0 ∉ key :: vis := by
                intro hc
                rcases List.mem_cons.mp hc with he | hm
                · exact hk0k he
                · exact hk0vis hm
              obtain ⟨P3, hp3, hk3⟩ := hpost1 l0 k0 hG hk0v1 hnotin
              exact ⟨P3, hp3, fun s hs => (hmem2 s).mpr (Or.inl (hk3 s hs))⟩
          · exact hpost2 l0 k0 hG hk0 hk0v1

/-- C1.  Under a fixed toolchain, the dependency collector returns exactly
the keep-first deduplication of the depth-first traversal of the reference
list: each concrete Library appears once per distinct resolved absolute
output path, in first-discovery order, however many reference chains reach
it.  Coherence (equal keys resolve to equal libraries) is the spec's
"output path uniquely identifies a buildable artifact" invariant. -/
theorem c1_collector_dedup (R : Registry) (tc : Toolchain) (ds : List Dep)
    (P : List (Library × String))
    (hpre : preL R tc ds = .ok P)
    (hcoh : ∀ p q, p ∈ P → q ∈ P → Prod.snd p = Prod.snd q → Prod.fst p = Prod.fst q) :
    collectDepsWithToolchain R tc ds = .ok ((dedupFirstFrom [] P).map Prod.fst)
    ∧ (keysOf (dedupFirstFrom [] P)).Nodup
    ∧ (∀ p, p ∈ P → Prod.snd p ∈ keysOf (dedupFirstFrom [] P)) := by
  obtain ⟨v', hcol, hmem, hpost⟩ := collect_dedup_main R tc P hcoh (sizeOf ds) ds le_rfl [] P
    hpre (fun p hp => hp) (fun l0 k0 _ hk0 => absurd hk0 (List.not_mem_nil _))
  refine ⟨?_, (dedupFirstFrom_nodup P []).1, ?_⟩
  · unfold collectDepsWithToolchain
    rw [hcol]
  · intro p hp
    rcases dedupFirstFrom_complete P [] p hp with hvis | hd
    · simp at hvis
    · exact hd

/-- Leaf of the diamond: `c.a`. -/
def cLeaf : Library := .mk (some (.out "c.a")) [] [] [] [] [] [] false false (some tcGcc)

/-- Middle of the diamond: `b.a`, depending on the leaf. -/
def cMid : Library := .mk (some (.out "b.a")) [] [] [] [] [] [.lib cLeaf] false false (some tcGcc)

/-- Root of the diamond: `d.a`, depending on the leaf directly and through
the middle. -/
def cRoot : Library :=
  .mk (some (.out "d.a")) [] [] [] [] [] [.lib cLeaf, .lib cMid] false false (some tcGcc)

/-- Witness for C1: the diamond `d.a → {c.a, b.a}`, `b.a → c.a`; the
traversal visits `c.a` twice, the collector keeps it once, first-discovery
order `d, c, b`. -/
theorem c1_collector_dedup_witness :
    collectDepsWithToolchain Rex tcGcc [.lib cRoot]
      = .ok ((dedupFirstFrom [] [(cRoot, "/workspace/build/d.a"),
          (cLeaf, "/workspace/build/c.a"), (cMid, "/workspace/build/b.a"),
          (cLeaf, "/workspace/build/c.a")]).map Prod.fst)
    ∧ (keysOf (dedupFirstFrom [] [(cRoot, "/workspace/build/d.a"),
        (cLeaf, "/workspace/build/c.a"), (cMid, "/workspace/build/b.a"),
        (cLeaf, "/workspace/build/c.a")])).Nodup
    ∧ (∀ p, p ∈ [(cRoot, "/workspace/build/d.a"), (cLeaf, "/workspace/build/c.a"),
        (cMid, "/workspace/build/b.a"), (cLeaf, "/workspace/build/c.a")] →
        Prod.snd p ∈ keysOf (dedupFirstFrom [] [(cRoot, "/workspace/build/d.a"),
          (cLeaf, "/workspace/build/c.a"), (cMid, "/workspace/build/b.a"),
          (cLeaf, "/workspace/build/c.a")])) :=
  c1_collector_dedup Rex tcGcc [.lib cRoot]
    [(cRoot, "/workspace/build/d.a"), (cLeaf, "/workspace/build/c.a"),
      (cMid, "/workspace/build/b.a"), (cLeaf, "/workspace/build/c.a")]
    rfl
    (by
      intro p q hp hq h
      fin_cases hp <;> fin_cases hq <;> simp_all)
